import Mathlib

/-!
# retracker: the swarm registry and the announce handler

A shallow embedding of `retracker.go`.

* Go strings are modelled by `String`; the functions of package `net` that the
  handler calls only look for the ASCII bytes `:`, `[` and `]`, and are written
  over the list of characters of the string.
* A Go `map[string]V` is an association list `GoMap V` with the three map
  operations of the language (index, assign, delete).  The order in which
  `range` visits a map is not fixed by the language: it is a `RangeOrder`,
  any function that permutes the entries it is given.
* `*swarm` is an address into a heap of allocated swarm objects, so that two
  requests on one content identifier reach the same object.  `*peer` records are
  written once and never mutated, and are stored by value.
* The clock (`time.Now().Unix()`) is an explicit argument; timestamps are
  integers and the one arithmetic operation on them, the subtraction of line
  117, is the wrapping subtraction of `int64`.
* `go cleanSwarm(infoHash)` starts a goroutine; the handler does not wait for
  it.  The handler and the sweep are two separate transitions of the state;
  `announceHandler` takes its snapshot before the sweep, `announceHandlerWith`
  after the transitions that come in between.
* A dereference of a nil pointer panics: a transition that panics is `none`.
-/

deriving instance DecidableEq for Except

namespace Retracker

/-! ## Go maps -/

/-- A Go map with string keys, as the list of its entries. -/
abbrev GoMap (V : Type) := List (String × V)

/-- The keys of the map. -/
def mapKeys {V : Type} (m : GoMap V) : List String := m.map Prod.fst

/-- Index expression with the comma-ok form, `v, ok := m[k]`. -/
def mapGet {V : Type} : GoMap V → String → Option V
  | [], _ => none
  | (k', v) :: m, k => if k' = k then some v else mapGet m k

/-- Assignment `m[k] = v`: overwrites the entry of `k`, or adds one. -/
def mapSet {V : Type} : GoMap V → String → V → GoMap V
  | [], k, v => [(k, v)]
  | (k', v') :: m, k, v => if k' = k then (k, v) :: m else (k', v') :: mapSet m k v

/-- Built-in `delete(m, k)`. -/
def mapDelete {V : Type} : GoMap V → String → GoMap V
  | [], _ => []
  | (k', v') :: m, k => if k' = k then mapDelete m k else (k', v') :: mapDelete m k

/-! ## Package `net`: `SplitHostPort` and `JoinHostPort` -/

/-- Go `bytealg.IndexByteString`: the index of the first `c` in `s`, if any. -/
def IndexByteString (s : List Char) (c : Char) : Option Nat :=
  if s.indexOf c < s.length then some (s.indexOf c) else none

/-- Go `bytealg.LastIndexByteString`: the index of the last `c` in `s`, if any. -/
def LastIndexByteString (s : List Char) (c : Char) : Option Nat :=
  match IndexByteString s.reverse c with
  | some j => some (s.length - 1 - j)
  | none => none

/-- The reasons for which `net.SplitHostPort` returns an `AddrError`. -/
inductive AddrError where
  | missingPort
  | tooManyColons
  | missingCloseBracket
  | unexpectedOpenBracket
  | unexpectedCloseBracket
deriving DecidableEq, Repr

/-- The first half of `net.SplitHostPort`: the host and the offsets `j`, `k`
from which a further `[`, respectively `]`, is an error; `i` is the index of
the last colon. -/
def splitHost (hostport : List Char) (i : Nat) : Except AddrError (List Char × Nat × Nat) :=
  if hostport.head? = some '[' then
    match IndexByteString hostport ']' with
    | none => .error .missingCloseBracket
    | some e =>
      if e + 1 = hostport.length then .error .missingPort
      else if e + 1 = i then .ok ((hostport.take e).drop 1, 1, e + 1)
      else if hostport.get? (e + 1) = some ':' then .error .tooManyColons
      else .error .missingPort
  else
    if (IndexByteString (hostport.take i) ':').isSome then .error .tooManyColons
    else .ok (hostport.take i, 0, 0)

/-- Go `net.SplitHostPort` on the characters of the address. -/
def splitHostPortChars (hostport : List Char) : Except AddrError (List Char × List Char) :=
  match LastIndexByteString hostport ':' with
  | none => .error .missingPort
  | some i =>
    match splitHost hostport i with
    | .error err => .error err
    | .ok (host, j, k) =>
      if (IndexByteString (hostport.drop j) '[').isSome then .error .unexpectedOpenBracket
      else if (IndexByteString (hostport.drop k) ']').isSome then .error .unexpectedCloseBracket
      else .ok (host, hostport.drop (i + 1))

/-- Go `net.SplitHostPort`: splits `host:port`, `[host]:port` into host and port. -/
def SplitHostPort (hostport : String) : Except AddrError (String × String) :=
  match splitHostPortChars hostport.data with
  | .error err => .error err
  | .ok (host, port) => .ok (String.mk host, String.mk port)

/-- Go `net.JoinHostPort`: `host:port`, or `[host]:port` when the host holds a colon. -/
def JoinHostPort (host port : String) : String :=
  if (IndexByteString host.data ':').isSome then "[" ++ host ++ "]:" ++ port
  else host ++ ":" ++ port

/-! ## Data model -/

/-- The Go struct `peer`. -/
structure peer where
  ID : String
  IP : String
  Port : String
  LastSeen : Int
deriving DecidableEq, Repr

/-- The Go struct `swarm`; the mutex carries no data. -/
structure swarm where
  Peers : GoMap peer
deriving DecidableEq, Repr

/-- An order in which `range sw.Peers` may visit the entries of the map. -/
structure RangeOrder where
  pick : GoMap peer → GoMap peer
  perm : ∀ m : GoMap peer, (pick m).Perm m

/-- The order in which the entries are stored. -/
def RangeOrder.stored : RangeOrder := ⟨fun m => m, fun _ => List.Perm.refl _⟩

/-- The reverse of the order in which the entries are stored. -/
def RangeOrder.reversed : RangeOrder := ⟨fun m => m.reverse, fun m => List.reverse_perm m⟩

/-- The process state: the allocated swarm objects and the package variable
`swarms`, which binds a content identifier to the address of its swarm. -/
structure State where
  heap : List swarm
  swarms : GoMap Nat
deriving DecidableEq, Repr

/-- The state at start-up: `swarms = make(map[string]*swarm)`. -/
def State.init : State := ⟨[], []⟩

/-- The swarm a content identifier is bound to, if it is bound to one. -/
def State.swarmOf (st : State) (infoHash : String) : Option swarm :=
  match mapGet st.swarms infoHash with
  | none => none
  | some a => st.heap.get? a

/-- The part of an `http.Request` the handler reads. -/
structure Request where
  info_hash : String
  peer_id : String
  port : String
  ip : String
  RemoteAddr : String
deriving DecidableEq, Repr

/-- What the handler has written to the `http.ResponseWriter`. -/
structure Response where
  status : Nat
  contentType : String
  body : String
deriving DecidableEq, Repr

def StatusOK : Nat := 200

def StatusBadRequest : Nat := 400

/-- Go `http.Error`: plain-text reply with the given code, whose body is the
message printed with `fmt.Fprintln`, that is, followed by a newline. -/
def httpError (msg : String) (code : Nat) : Response :=
  ⟨code, "text/plain; charset=utf-8", msg ++ "\n"⟩

/-! ## The handler and the sweep -/

/-- Lines 72-75: the address the IP is taken from. -/
def effectiveAddr (r : Request) : String :=
  if r.ip ≠ "" then r.ip else r.RemoteAddr

/-- Lines 53-81: the four checks; the host on success, the reply on failure. -/
def validate (r : Request) : Except Response String :=
  if r.info_hash = "" then .error (httpError "Missing info_hash" StatusBadRequest)
  else if r.peer_id = "" then .error (httpError "Missing peer_id" StatusBadRequest)
  else if r.port = "" then .error (httpError "Missing port" StatusBadRequest)
  else
    match SplitHostPort (effectiveAddr r) with
    | .error _ => .error (httpError "Invalid IP address" StatusBadRequest)
    | .ok (host, _) => .ok host

/-- Lines 83-87: the swarm of the content identifier, allocated and published
if the identifier has none. -/
def getOrCreateSwarm (st : State) (infoHash : String) : Nat × State :=
  match mapGet st.swarms infoHash with
  | some a => (a, st)
  | none => (st.heap.length, ⟨st.heap ++ [⟨[]⟩], mapSet st.swarms infoHash st.heap.length⟩)

/-- Lines 89-92: `sw.Peers[peerID] = p` on the swarm at address `a`. -/
def upsertPeer (st : State) (a : Nat) (p : peer) : Option State :=
  match st.heap.get? a with
  | none => none
  | some sw => some ⟨st.heap.set a ⟨mapSet sw.Peers p.ID p⟩, st.swarms⟩

/-- Lines 97-102: one `JoinHostPort(p.IP, p.Port)` per entry, in range order. -/
def snapshotMembers (ro : RangeOrder) (sw : swarm) : List String :=
  (ro.pick sw.Peers).map (fun e => JoinHostPort e.2.IP e.2.Port)

/-- Lines 104-107: every line is written followed by a newline. -/
def renderBody (peers : List String) : String :=
  String.join (peers.map (fun p => p ++ "\n"))

/-- What one run of the handler leaves behind: the reply, the state, and the
argument of the goroutine `cleanSwarm` started at line 95 if that line was
reached. -/
structure Outcome where
  resp : Response
  st : State
  spawned : Option String
deriving DecidableEq, Repr

/-- The function `announceHandler` when no other goroutine runs between line
92 and line 97: the goroutine started at line 95 takes the lock of the swarm
after the snapshot, as the separate transition `cleanSwarm`.  The handler with
goroutines in between is `announceHandlerWith`. -/
def announceHandler (ro : RangeOrder) (now : Int) (st : State) (r : Request) : Option Outcome :=
  match validate r with
  | .error resp => some ⟨resp, st, none⟩
  | .ok host =>
    match upsertPeer (getOrCreateSwarm st r.info_hash).2 (getOrCreateSwarm st r.info_hash).1
        ⟨r.peer_id, host, r.port, now⟩ with
    | none => none
    | some st2 =>
      match st2.heap.get? (getOrCreateSwarm st r.info_hash).1 with
      | none => none
      | some sw =>
        some ⟨⟨StatusOK, "text/plain", renderBody (snapshotMembers ro sw)⟩, st2, some r.info_hash⟩

/-- The eviction window of line 117, in seconds. -/
def ttlSeconds : Int := 1800

/-- Subtraction of two `int64`, as Go computes it: the difference of the
integers, wrapped into the range of the type. -/
def sub64 (a b : Int) : Int := (a - b + 2 ^ 63) % 2 ^ 64 - 2 ^ 63

/-- The test of line 117, `now-p.LastSeen > 1800`, for the window `ttl`. -/
def stale (now : Int) (ttl : Int) (p : peer) : Bool := decide (sub64 now p.LastSeen > ttl)

/-- Lines 116-120: the loop of `cleanSwarm` visits the entries in range order
and deletes the key of every entry whose record is older than `ttl`. -/
def evictStale (ro : RangeOrder) (now : Int) (ttl : Int) (peers : GoMap peer) : GoMap peer :=
  (ro.pick peers).foldl (fun m e => if stale now ttl e.2 then mapDelete m e.1 else m) peers

/-- The function `cleanSwarm`; `swarms[infoHash]` is nil for an unbound
identifier and locking its mutex panics. -/
def cleanSwarm (ro : RangeOrder) (now : Int) (st : State) (infoHash : String) : Option State :=
  match mapGet st.swarms infoHash with
  | none => none
  | some a =>
    match st.heap.get? a with
    | none => none
    | some sw => some ⟨st.heap.set a ⟨evictStale ro now ttlSeconds sw.Peers⟩, st.swarms⟩

/-! ## Runs of the process -/

/-- The two transitions of the state: a request served by the handler, and a
run of the goroutine `cleanSwarm`. -/
inductive Event where
  | announce (ro : RangeOrder) (now : Int) (r : Request)
  | sweep (ro : RangeOrder) (now : Int) (infoHash : String)

/-- One transition; `none` when it panics. -/
def step (st : State) : Event → Option State
  | .announce ro now r => (announceHandler ro now st r).map Outcome.st
  | .sweep ro now infoHash => cleanSwarm ro now st infoHash

/-- A sequence of transitions. -/
def run (st : State) : List Event → Option State
  | [] => some st
  | e :: es =>
    match step st e with
    | none => none
    | some st1 => run st1 es

/-! ## Predicates of the statements -/

/-- The address splits into host and port. -/
def splits (addr : String) : Bool :=
  match SplitHostPort addr with
  | .ok _ => true
  | .error _ => false

/-- A well-formed announce: the three required parameters are present and the
effective address splits into host and port. -/
def wellFormed (r : Request) : Prop :=
  r.info_hash ≠ "" ∧ r.peer_id ≠ "" ∧ r.port ≠ "" ∧ splits (effectiveAddr r) = true

instance (r : Request) : Decidable (wellFormed r) := by
  unfold wellFormed; infer_instance

/-- The states of a running process are of this shape: the registry has one
entry per content identifier, no two identifiers share a swarm object, every
address in the registry is allocated, and a swarm has one entry per peer
identifier. -/
def State.WF (st : State) : Prop :=
  (mapKeys st.swarms).Nodup ∧ (st.swarms.map Prod.snd).Nodup ∧
    (∀ e ∈ st.swarms, e.2 < st.heap.length) ∧ (∀ sw ∈ st.heap, (mapKeys sw.Peers).Nodup)

instance (st : State) : Decidable st.WF := by
  unfold State.WF; infer_instance

/-- The string `s` occurs in the body. -/
def occursIn (s body : String) : Prop := s.data <:+: body.data

instance (s body : String) : Decidable (occursIn s body) := by
  unfold occursIn; infer_instance

/-- The newline-terminated lines of a text; `acc` holds the current line,
reversed. -/
def linesAux : List Char → List Char → List String
  | _, [] => []
  | acc, c :: cs => if c = '\n' then String.mk acc.reverse :: linesAux [] cs else linesAux (c :: acc) cs

/-- The newline-terminated lines of a body. -/
def bodyLines (body : String) : List String := linesAux [] body.data

/-- No newline in the string. -/
def noNewline (s : String) : Prop := '\n' ∉ s.data

instance (s : String) : Decidable (noNewline s) := by
  unfold noNewline; infer_instance

/-- How a member is rendered at line 100. -/
def renderMember (e : String × peer) : String := JoinHostPort e.2.IP e.2.Port

/-- The number of newline-terminated lines a member contributes to a body. -/
def linesOfMember (e : String × peer) : Nat := (renderMember e).data.count '\n' + 1

/-- The entries of the swarm of a content identifier; none when it has no swarm. -/
def peersOf (st : State) (infoHash : String) : GoMap peer :=
  match st.swarmOf infoHash with
  | some sw => sw.Peers
  | none => []

/-- The state a successful announce leaves: the record of the peer is assigned
in the swarm of the content identifier. -/
def announced (now : Int) (st : State) (r : Request) (host : String) : State :=
  ⟨(getOrCreateSwarm st r.info_hash).2.heap.set (getOrCreateSwarm st r.info_hash).1
      ⟨mapSet (peersOf st r.info_hash) r.peer_id ⟨r.peer_id, host, r.port, now⟩⟩,
    (getOrCreateSwarm st r.info_hash).2.swarms⟩

/-! ## Requests served concurrently

`net/http` serves every request in a goroutine of its own.  The handler touches
shared memory at four places: the index expression of line 83, the assignment
of line 86, the locked assignment of lines 90-92 and the locked loop of lines
97-102.  Between two of them another request may be served. -/

/-- Where a request in service stands: before line 53; after line 83, with the
result of the index expression; after line 87, holding the swarm it will write
to; after line 95; and after the reply. -/
inductive Task where
  | start (r : Request)
  | lookedUp (r : Request) (host : String) (sw : Option Nat)
  | holding (r : Request) (host : String) (sw : Nat)
  | upserted (r : Request) (host : String) (sw : Nat)
  | replied (resp : Response)
deriving DecidableEq, Repr

/-- The handler from one access to shared memory to the next. -/
def taskStep (ro : RangeOrder) (now : Int) (st : State) : Task → Option (State × Task)
  | .start r =>
    match validate r with
    | .error resp => some (st, .replied resp)
    | .ok host => some (st, .lookedUp r host (mapGet st.swarms r.info_hash))
  | .lookedUp r host (some a) => some (st, .holding r host a)
  | .lookedUp r host none =>
    some (⟨st.heap ++ [⟨[]⟩], mapSet st.swarms r.info_hash st.heap.length⟩,
      .holding r host st.heap.length)
  | .holding r host a =>
    match upsertPeer st a ⟨r.peer_id, host, r.port, now⟩ with
    | none => none
    | some st2 => some (st2, .upserted r host a)
  | .upserted _ _ a =>
    match st.heap.get? a with
    | none => none
    | some sw => some (st, .replied ⟨StatusOK, "text/plain", renderBody (snapshotMembers ro sw)⟩)
  | .replied resp => some (st, .replied resp)

/-- The handler run for `n` accesses without another request in between. -/
def taskRun (ro : RangeOrder) (now : Int) (st : State) (t : Task) : Nat → Option (State × Task)
  | 0 => some (st, t)
  | n + 1 =>
    match taskStep ro now st t with
    | none => none
    | some (st1, t1) => taskRun ro now st1 t1 n

/-- The shared state and the requests in service. -/
structure Config where
  st : State
  tasks : List Task
deriving DecidableEq, Repr

/-- The scheduler lets request `i` make its next access. -/
def schedStep (ro : RangeOrder) (now : Int) (c : Config) (i : Nat) : Option Config :=
  match c.tasks.get? i with
  | none => some c
  | some t =>
    match taskStep ro now c.st t with
    | none => none
    | some (st1, t1) => some ⟨st1, c.tasks.set i t1⟩

/-- A schedule: the requests that make an access, in order. -/
def schedRun (ro : RangeOrder) (now : Int) (c : Config) : List Nat → Option Config
  | [] => some c
  | i :: is =>
    match schedStep ro now c i with
    | none => none
    | some c1 => schedRun ro now c1 is

/-! ## The handler and the goroutines that run beside it

The handler releases the lock of the swarm at line 92, starts the goroutine
`cleanSwarm` at line 95 and takes the lock again at line 97.  In between, the
goroutine it has just started, and those of other requests, may run. -/

/-- The function `announceHandler` with the transitions `between` of other
goroutines (the sweep started at line 95 among them) that take place after the
handler has released the lock at line 92 and before it takes it again at line
97: the snapshot is taken in the state they leave.  The reply and the state at
the snapshot; a request that fails a check returns before line 83 and leaves
the state it was given. -/
def announceHandlerWith (ro : RangeOrder) (now : Int) (between : List Event) (st : State)
    (r : Request) : Option (Response × State) :=
  match validate r with
  | .error resp => some (resp, st)
  | .ok host =>
    match upsertPeer (getOrCreateSwarm st r.info_hash).2 (getOrCreateSwarm st r.info_hash).1
        ⟨r.peer_id, host, r.port, now⟩ with
    | none => none
    | some st2 =>
      match run st2 between with
      | none => none
      | some st3 =>
        match st3.heap.get? (getOrCreateSwarm st r.info_hash).1 with
        | none => none
        | some sw => some (⟨StatusOK, "text/plain", renderBody (snapshotMembers ro sw)⟩, st3)

/-- What runs between line 92 and line 97 of a request that no other request
overlaps: nothing, or the goroutine started at line 95, with its range order
and its clock. -/
def ownSweep (early : Option (RangeOrder × Int)) (infoHash : String) : List Event :=
  match early with
  | none => []
  | some (ro, now) => [.sweep ro now infoHash]

/-! ## The unguarded map `swarms`

No lock guards the map `swarms`: the handler reads it at line 83 and assigns to
it at line 86, and the goroutine `cleanSwarm` reads it at line 111.  An
assignment to a Go map is not atomic: the runtime marks the map as being
written, inserts the key, and removes the mark; an access that finds the mark
on a map that has entries ends the process with a fatal error. -/

/-- The memory the goroutines share: the state, and the mark the runtime keeps
on the map `swarms` while an assignment to it is in progress. -/
structure Shared where
  st : State
  writing : Bool
deriving DecidableEq, Repr

/-- A goroutine: a request in service, outside the assignment of line 86; a
request inside that assignment, before and after the key is inserted;
`cleanSwarm` before line 111; `cleanSwarm` after line 111, holding what it
read; a goroutine that has returned. -/
inductive Thread where
  | serving (t : Task)
  | assigning (r : Request) (host : String) (sw : Nat) (inserted : Bool)
  | sweep (infoHash : String)
  | sweeping (sw : Option Nat)
  | exited
deriving DecidableEq, Repr

/-- The ways a goroutine ends the process: the panic of a nil dereference, and
the two fatal errors of the runtime on a map accessed while it is written. -/
inductive Fault where
  | nilDereference
  | concurrentMapReadAndMapWrite
  | concurrentMapWrites
deriving DecidableEq, Repr

/-- The check of the runtime at an index expression on `swarms`: reading a map
that has entries while an assignment to it is in progress is fatal. -/
def readFault (m : Shared) : Bool := m.writing && !m.st.swarms.isEmpty

/-- A goroutine from one access to shared memory to the next: the memory, the
goroutine, and the goroutines it has started.  In the order of the cases: lines
53-83 (the four checks, then the index expression on `swarms`); line 84 when a
swarm was found; lines 85-86 up to the mark of the runtime on `swarms`; the
insertion of the key; the end of the assignment, where the runtime removes the
mark; lines 89-95 (the locked assignment to `sw.Peers`, then `go cleanSwarm`);
lines 97-107 (the locked snapshot and the reply); line 111 (the index expression
of `cleanSwarm` on `swarms`); line 112 on nil; lines 112-120 (the locked loop of
deletions). -/
def threadStep (ro : RangeOrder) (now : Int) (m : Shared) :
    Thread → Except Fault (Shared × Thread × List Thread)
  | .serving (.start r) =>
    match validate r with
    | .error resp => .ok (m, .serving (.replied resp), [])
    | .ok host =>
      if readFault m then .error .concurrentMapReadAndMapWrite
      else .ok (m, .serving (.lookedUp r host (mapGet m.st.swarms r.info_hash)), [])
  | .serving (.lookedUp r host (some a)) => .ok (m, .serving (.holding r host a), [])
  | .serving (.lookedUp r host none) =>
    if m.writing then .error .concurrentMapWrites
    else .ok (⟨⟨m.st.heap ++ [⟨[]⟩], m.st.swarms⟩, true⟩,
      .assigning r host m.st.heap.length false, [])
  | .assigning r host a false =>
    .ok (⟨⟨m.st.heap, mapSet m.st.swarms r.info_hash a⟩, m.writing⟩, .assigning r host a true, [])
  | .assigning r host a true =>
    if m.writing then .ok (⟨m.st, false⟩, .serving (.holding r host a), [])
    else .error .concurrentMapWrites
  | .serving (.holding r host a) =>
    match upsertPeer m.st a ⟨r.peer_id, host, r.port, now⟩ with
    | none => .error .nilDereference
    | some st2 => .ok (⟨st2, m.writing⟩, .serving (.upserted r host a), [.sweep r.info_hash])
  | .serving (.upserted _ _ a) =>
    match m.st.heap.get? a with
    | none => .error .nilDereference
    | some sw =>
      .ok (m, .serving (.replied ⟨StatusOK, "text/plain", renderBody (snapshotMembers ro sw)⟩), [])
  | .serving (.replied resp) => .ok (m, .serving (.replied resp), [])
  | .sweep infoHash =>
    if readFault m then .error .concurrentMapReadAndMapWrite
    else .ok (m, .sweeping (mapGet m.st.swarms infoHash), [])
  | .sweeping none => .error .nilDereference
  | .sweeping (some a) =>
    match m.st.heap.get? a with
    | none => .error .nilDereference
    | some sw =>
      .ok (⟨⟨m.st.heap.set a ⟨evictStale ro now ttlSeconds sw.Peers⟩, m.st.swarms⟩, m.writing⟩,
        .exited, [])
  | .exited => .ok (m, .exited, [])

/-- The shared memory and the goroutines of the process. -/
structure World where
  mem : Shared
  threads : List Thread
deriving DecidableEq, Repr

/-- The scheduler lets goroutine `i` make its next access; the goroutines it
starts are added to the list. -/
def worldStep (ro : RangeOrder) (now : Int) (w : World) (i : Nat) : Except Fault World :=
  match w.threads.get? i with
  | none => .ok w
  | some t =>
    match threadStep ro now w.mem t with
    | .error f => .error f
    | .ok (m1, t1, started) => .ok ⟨m1, w.threads.set i t1 ++ started⟩

/-- A schedule: the goroutines that make an access, in order, each with the
time of its access. -/
def worldRun (ro : RangeOrder) (w : World) : List (Nat × Int) → Except Fault World
  | [] => .ok w
  | (i, now) :: is =>
    match worldStep ro now w i with
    | .error f => .error f
    | .ok w1 => worldRun ro w1 is

/-- What a goroutine holds is there: a swarm it holds is allocated, and the
content identifier a handler past line 87, or `cleanSwarm`, works on is a key
of the registry. -/
def threadOK (st : State) : Thread → Prop
  | .serving (.lookedUp r _ (some a)) =>
    a < st.heap.length ∧ (mapGet st.swarms r.info_hash).isSome = true
  | .serving (.holding r _ a) => a < st.heap.length ∧ (mapGet st.swarms r.info_hash).isSome = true
  | .serving (.upserted _ _ a) => a < st.heap.length
  | .assigning _ _ a false => a < st.heap.length
  | .assigning r _ a true => a < st.heap.length ∧ (mapGet st.swarms r.info_hash).isSome = true
  | .sweep infoHash => (mapGet st.swarms infoHash).isSome = true
  | .sweeping x => ∃ a, x = some a ∧ a < st.heap.length
  | _ => True

/-- Every address in the registry is allocated and every goroutine holds what
is there. -/
def World.Safe (w : World) : Prop :=
  (∀ e ∈ w.mem.st.swarms, e.2 < w.mem.st.heap.length) ∧ ∀ t ∈ w.threads, threadOK w.mem.st t

/-- The keys and records of the state are as the handler writes them: no
content identifier is empty, and every entry of a swarm has a non-empty key,
a record whose `ID` is that key, and a non-empty port. -/
def State.Tidy (st : State) : Prop :=
  (∀ e ∈ st.swarms, e.1 ≠ "") ∧
    ∀ sw ∈ st.heap, ∀ x ∈ sw.Peers, x.1 ≠ "" ∧ x.2.ID = x.1 ∧ x.2.Port ≠ ""

instance (st : State) : Decidable st.Tidy := by
  unfold State.Tidy; infer_instance

/-! ## Go maps: lemmas -/

theorem mapGet_mem {V : Type} (m : GoMap V) (k : String) (v : V) (h : mapGet m k = some v) :
    (k, v) ∈ m := by
  induction m with
  | nil => simp [mapGet] at h
  | cons e m ih =>
    obtain ⟨k1, v1⟩ := e
    by_cases hk : k1 = k
    · simp [mapGet, hk] at h
      simp [hk, h]
    · simp [mapGet, hk] at h
      exact List.mem_cons_of_mem _ (ih h)

theorem mapGet_eq_none_iff {V : Type} (m : GoMap V) (k : String) :
    mapGet m k = none ↔ k ∉ mapKeys m := by
  induction m with
  | nil => simp [mapGet, mapKeys]
  | cons e m ih =>
    obtain ⟨k1, v1⟩ := e
    by_cases hk : k1 = k
    · simp [mapGet, mapKeys, hk]
    · have hk2 : ¬ k = k1 := fun h => hk h.symm
      simp only [mapKeys] at ih
      simp [mapGet, mapKeys, hk, hk2, ih]

theorem mapGet_of_mem_nodup {V : Type} (m : GoMap V) (k : String) (v : V)
    (hn : (mapKeys m).Nodup) (h : (k, v) ∈ m) : mapGet m k = some v := by
  induction m with
  | nil => simp at h
  | cons e m ih =>
    obtain ⟨k1, v1⟩ := e
    simp only [mapKeys, List.map_cons, List.nodup_cons] at hn
    rcases List.mem_cons.mp h with h1 | h1
    · simp only [Prod.mk.injEq] at h1
      simp [mapGet, h1.1, h1.2]
    · have hk : k1 ≠ k := by
        intro hk
        apply hn.1
        rw [hk]
        exact List.mem_map_of_mem Prod.fst h1
      simp only [mapGet, hk, if_false]
      exact ih hn.2 h1

theorem mapGet_mapSet_self {V : Type} (m : GoMap V) (k : String) (v : V) :
    mapGet (mapSet m k v) k = some v := by
  induction m with
  | nil => simp [mapSet, mapGet]
  | cons e m ih =>
    obtain ⟨k1, v1⟩ := e
    by_cases hk : k1 = k
    · simp [mapSet, mapGet, hk]
    · simp [mapSet, mapGet, hk, ih]

theorem mapGet_mapSet_ne {V : Type} (m : GoMap V) (k k2 : String) (v : V) (h : k2 ≠ k) :
    mapGet (mapSet m k v) k2 = mapGet m k2 := by
  induction m with
  | nil =>
    have h2 : ¬ k = k2 := fun e => h e.symm
    simp [mapSet, mapGet, h2]
  | cons e m ih =>
    obtain ⟨k1, v1⟩ := e
    by_cases hk : k1 = k
    · have h2 : ¬ k = k2 := fun e => h e.symm
      have h3 : ¬ k1 = k2 := fun e => h2 (hk ▸ e)
      simp [mapSet, mapGet, hk, h2]
    · by_cases hk2 : k1 = k2
      · subst hk2
        simp [mapSet, mapGet, hk]
      · simp [mapSet, mapGet, hk, hk2, ih]

theorem mem_mapSet_self {V : Type} (m : GoMap V) (k : String) (v : V) :
    (k, v) ∈ mapSet m k v :=
  mapGet_mem _ _ _ (mapGet_mapSet_self m k v)

theorem mapSet_of_not_mem {V : Type} (m : GoMap V) (k : String) (v : V)
    (h : mapGet m k = none) : mapSet m k v = m ++ [(k, v)] := by
  induction m with
  | nil => simp [mapSet]
  | cons e m ih =>
    obtain ⟨k1, v1⟩ := e
    by_cases hk : k1 = k
    · simp [mapGet, hk] at h
    · simp only [mapGet, hk, if_false] at h
      simp [mapSet, hk, ih h]

theorem mapKeys_mapSet_of_mem {V : Type} (m : GoMap V) (k : String) (v : V)
    (h : k ∈ mapKeys m) : mapKeys (mapSet m k v) = mapKeys m := by
  induction m with
  | nil => simp [mapKeys] at h
  | cons e m ih =>
    obtain ⟨k1, v1⟩ := e
    by_cases hk : k1 = k
    · simp [mapSet, mapKeys, hk]
    · have h2 : k ∈ mapKeys m := by
        simp only [mapKeys, List.map_cons, List.mem_cons] at h
        rcases h with h | h
        · exact absurd h.symm hk
        · exact h
      have := ih h2
      simp only [mapKeys] at this
      simp [mapSet, mapKeys, hk, this]

theorem mapKeys_mapSet_nodup {V : Type} (m : GoMap V) (k : String) (v : V)
    (hn : (mapKeys m).Nodup) : (mapKeys (mapSet m k v)).Nodup := by
  by_cases h : k ∈ mapKeys m
  · rw [mapKeys_mapSet_of_mem m k v h]; exact hn
  · rw [mapSet_of_not_mem m k v ((mapGet_eq_none_iff m k).mpr h)]
    simp only [mapKeys, List.map_append, List.map_cons, List.map_nil]
    simp only [mapKeys] at h hn
    exact List.Nodup.append hn (List.nodup_singleton k) (by simpa using h)

/-- Assigning to a key leaves every entry of another key in place. -/
theorem mem_mapSet_of_ne {V : Type} (m : GoMap V) (k : String) (v : V) (e : String × V)
    (hk : e.1 ≠ k) : e ∈ mapSet m k v ↔ e ∈ m := by
  induction m with
  | nil =>
    simp only [mapSet, List.mem_singleton, List.not_mem_nil, iff_false]
    intro h; exact hk (by rw [h])
  | cons e1 m ih =>
    obtain ⟨k1, v1⟩ := e1
    by_cases h1 : k1 = k
    · simp only [mapSet, h1, if_true, List.mem_cons]
      constructor
      · rintro (h | h)
        · exact absurd (by rw [h]) hk
        · exact Or.inr h
      · rintro (h | h)
        · exact absurd (by rw [h]) hk
        · exact Or.inr h
    · simp only [mapSet, h1, if_false, List.mem_cons, ih]

/-! ## The handler: lemmas -/

theorem validate_of_wellFormed (r : Request) (h : wellFormed r) :
    ∃ host port, SplitHostPort (effectiveAddr r) = .ok (host, port) ∧ validate r = .ok host := by
  obtain ⟨h1, h2, h3, h4⟩ := h
  unfold splits at h4
  cases hs : SplitHostPort (effectiveAddr r) with
  | error err => simp [hs] at h4
  | ok hp =>
    obtain ⟨host, port⟩ := hp
    exact ⟨host, port, rfl, by simp [validate, h1, h2, h3, hs]⟩

theorem validate_of_not_wellFormed (r : Request) (h : ¬ wellFormed r) :
    ∃ resp, validate r = .error resp ∧ resp.status = 400 := by
  unfold validate
  by_cases h1 : r.info_hash = ""
  · exact ⟨httpError "Missing info_hash" StatusBadRequest, by simp [h1], rfl⟩
  by_cases h2 : r.peer_id = ""
  · exact ⟨httpError "Missing peer_id" StatusBadRequest, by simp [h1, h2], rfl⟩
  by_cases h3 : r.port = ""
  · exact ⟨httpError "Missing port" StatusBadRequest, by simp [h1, h2, h3], rfl⟩
  cases hs : SplitHostPort (effectiveAddr r) with
  | error err => exact ⟨httpError "Invalid IP address" StatusBadRequest, by simp [h1, h2, h3], rfl⟩
  | ok hp => exact absurd ⟨h1, h2, h3, by simp [splits, hs]⟩ h

theorem State.WF.valid_of_get {st : State} (hwf : st.WF) {k : String} {a : Nat}
    (h : mapGet st.swarms k = some a) : a < st.heap.length :=
  hwf.2.2.1 (k, a) (mapGet_mem _ _ _ h)

theorem State.WF.swarmOf_of_get {st : State} (hwf : st.WF) {k : String} {a : Nat}
    (h : mapGet st.swarms k = some a) : ∃ sw, st.heap.get? a = some sw ∧ st.swarmOf k = some sw := by
  have hlt := hwf.valid_of_get h
  refine ⟨st.heap.get ⟨a, hlt⟩, List.get?_eq_get hlt, ?_⟩
  simp only [State.swarmOf, h]
  exact List.get?_eq_get hlt

/-- A well-formed announce is served: the reply and the state it leaves. -/
theorem announceHandler_of_validate (ro : RangeOrder) (now : Int) (st : State) (r : Request)
    (host : String) (hwf : st.WF) (hv : validate r = .ok host) :
    announceHandler ro now st r = some
      ⟨⟨200, "text/plain", renderBody (snapshotMembers ro
          ⟨mapSet (peersOf st r.info_hash) r.peer_id ⟨r.peer_id, host, r.port, now⟩⟩)⟩,
        announced now st r host, some r.info_hash⟩ := by
  unfold announceHandler announced
  simp only [hv]
  cases hg : mapGet st.swarms r.info_hash with
  | some a =>
    obtain ⟨sw, hsw, hof⟩ := hwf.swarmOf_of_get hg
    have hlt := hwf.valid_of_get hg
    have hEq : st.heap[a] = sw := by
      have h2 := hsw
      rw [List.get?_eq_getElem?, List.getElem?_eq_getElem hlt] at h2
      exact Option.some.inj h2
    simp [getOrCreateSwarm, hg, upsertPeer, hsw, peersOf, hof, StatusOK, hlt, hEq]
  | none =>
    simp [getOrCreateSwarm, hg, upsertPeer, peersOf, State.swarmOf, StatusOK]

theorem announceHandler_of_not_wellFormed (ro : RangeOrder) (now : Int) (st : State)
    (r : Request) (h : ¬ wellFormed r) :
    ∃ resp, announceHandler ro now st r = some ⟨resp, st, none⟩ ∧ resp.status = 400 := by
  obtain ⟨resp, hv, hs⟩ := validate_of_not_wellFormed r h
  exact ⟨resp, by simp [announceHandler, hv], hs⟩

theorem IndexByteString_isSome_iff (s : List Char) (c : Char) :
    (IndexByteString s c).isSome = true ↔ c ∈ s := by
  unfold IndexByteString
  by_cases h : c ∈ s
  · simp [List.indexOf_lt_length.mpr h, h]
  · have h2 : ¬ List.indexOf c s < s.length := fun hlt => h (List.indexOf_lt_length.mp hlt)
    simp [h2, h]

theorem JoinHostPort_eq (host port : String) :
    JoinHostPort host port =
      if ':' ∈ host.data then "[" ++ host ++ "]:" ++ port else host ++ ":" ++ port := by
  unfold JoinHostPort
  by_cases h : ':' ∈ host.data
  · simp [(IndexByteString_isSome_iff host.data ':').mpr h, h]
  · have h2 : ¬ (IndexByteString host.data ':').isSome = true :=
      fun hs => h ((IndexByteString_isSome_iff host.data ':').mp hs)
    simp [h2, h]

theorem occursIn_renderBody (pre post : List String) (l : String) :
    occursIn (l ++ "\n") (renderBody (pre ++ l :: post)) := by
  unfold occursIn renderBody
  refine ⟨((pre.map (fun p => p ++ "\n")).map String.data).flatten,
    ((post.map (fun p => p ++ "\n")).map String.data).flatten, ?_⟩
  simp [String.data_join]

/-- The record a peer has just announced is among the lines of the snapshot. -/
theorem own_line_mem_snapshot (ro : RangeOrder) (m : GoMap peer) (p : peer) :
    JoinHostPort p.IP p.Port ∈ snapshotMembers ro ⟨mapSet m p.ID p⟩ := by
  unfold snapshotMembers
  refine List.mem_map.mpr ⟨(p.ID, p), ?_, rfl⟩
  exact (ro.perm _).mem_iff.mpr (mem_mapSet_self m p.ID p)

/-! ## C1: a well-formed announce is answered with the peer's own line -/

/-- C1, as stated, fails: a peer that announces from the IPv6 address
`[::1]:5000` with port 6881 has resolved IP `::1`, and the body of the reply is
the single line `[::1]:6881`; the text `::1:6881` followed by a newline, made
of the resolved IP, a colon and the port, does not occur in it. -/
theorem announce_own_line_counterexample :
    wellFormed ⟨"ABC", "P1", "6881", "", "[::1]:5000"⟩ ∧ State.init.WF ∧
    SplitHostPort (effectiveAddr ⟨"ABC", "P1", "6881", "", "[::1]:5000"⟩) = .ok ("::1", "5000") ∧
    (announceHandler RangeOrder.stored 0 State.init ⟨"ABC", "P1", "6881", "", "[::1]:5000"⟩).map
      (fun out => (out.resp.status, out.resp.body)) = some (200, "[::1]:6881\n") ∧
    ¬ occursIn ("::1" ++ ":" ++ "6881" ++ "\n") "[::1]:6881\n" := by
  refine ⟨by decide, by decide, by decide, by decide, by decide⟩

/-- C1, amended: for every registry state of a running process and every
well-formed announce, the handler (run without a sweep in between) answers with
status 200 and a body one of whose newline-terminated lines is the peer's own
line `JoinHostPort(resolved IP, port)`: the resolved IP, a colon and the port
when the IP holds no colon, and the IP in square brackets, a colon and the port
when it holds one. -/
theorem announce_lists_own_line (ro : RangeOrder) (now : Int) (st : State) (r : Request)
    (hwf : st.WF) (hr : wellFormed r) :
    ∃ out host port pre post,
      SplitHostPort (effectiveAddr r) = .ok (host, port) ∧
      announceHandler ro now st r = some out ∧ out.resp.status = 200 ∧
      out.resp.body = renderBody (pre ++ JoinHostPort host r.port :: post) ∧
      occursIn (JoinHostPort host r.port ++ "\n") out.resp.body ∧
      JoinHostPort host r.port =
        (if ':' ∈ host.data then "[" ++ host ++ "]:" ++ r.port else host ++ ":" ++ r.port) := by
  obtain ⟨host, port, hs, hv⟩ := validate_of_wellFormed r hr
  have hmem := own_line_mem_snapshot ro (peersOf st r.info_hash) ⟨r.peer_id, host, r.port, now⟩
  obtain ⟨pre, post, hsplit⟩ := List.append_of_mem hmem
  refine ⟨_, host, port, pre, post, hs, announceHandler_of_validate ro now st r host hwf hv,
    rfl, ?_, ?_, JoinHostPort_eq host r.port⟩
  · simp only [hsplit]
  · simp only [hsplit]
    exact occursIn_renderBody pre post _

/-- The scenario of the specification: `info_hash=ABC, peer_id=P1, port=6881` from
`1.2.3.4:5000` on the empty registry. -/
theorem announce_lists_own_line_witness :
    ∃ out host port pre post,
      SplitHostPort (effectiveAddr ⟨"ABC", "P1", "6881", "", "1.2.3.4:5000"⟩) = .ok (host, port) ∧
      announceHandler RangeOrder.stored 0 State.init ⟨"ABC", "P1", "6881", "", "1.2.3.4:5000"⟩
        = some out ∧ out.resp.status = 200 ∧
      out.resp.body = renderBody (pre ++ JoinHostPort host "6881" :: post) ∧
      occursIn (JoinHostPort host "6881" ++ "\n") out.resp.body ∧
      JoinHostPort host "6881" =
        (if ':' ∈ host.data then "[" ++ host ++ "]:" ++ "6881" else host ++ ":" ++ "6881") :=
  announce_lists_own_line RangeOrder.stored 0 State.init ⟨"ABC", "P1", "6881", "", "1.2.3.4:5000"⟩
    (by decide) (by decide)

/-! ## C2: the order of the four checks and the replies -/

/-- C2, as stated, fails: the reply to an announce without `info_hash` has
status 400, but its body is not exactly `Missing info_hash`: `http.Error`
prints the message followed by a newline. -/
theorem validation_body_counterexample :
    ∃ out, announceHandler RangeOrder.stored 0 State.init ⟨"", "P1", "6881", "", "1.2.3.4:5000"⟩
        = some out ∧ out.resp.status = 400 ∧ out.resp.body = "Missing info_hash\n" ∧
      out.resp.body ≠ "Missing info_hash" :=
  ⟨⟨⟨400, "text/plain; charset=utf-8", "Missing info_hash\n"⟩, State.init, none⟩,
    by decide, by decide, by decide, by decide⟩

/-- C2, amended: the handler checks info_hash, peer_id, port and the effective
address in this order and the first check that fails decides the reply, which
has status 400 and as body the fixed message followed by one newline:
`Missing info_hash`, `Missing peer_id`, `Missing port`, `Invalid IP address`;
a failed check leaves the state as it was and starts no sweep; and when all
four checks pass, the reply the handler gives has status 200, not 400. -/
theorem validation_order (ro : RangeOrder) (now : Int) (st : State) (r : Request) :
    (r.info_hash = "" → announceHandler ro now st r =
        some ⟨⟨400, "text/plain; charset=utf-8", "Missing info_hash\n"⟩, st, none⟩) ∧
    (r.info_hash ≠ "" → r.peer_id = "" → announceHandler ro now st r =
        some ⟨⟨400, "text/plain; charset=utf-8", "Missing peer_id\n"⟩, st, none⟩) ∧
    (r.info_hash ≠ "" → r.peer_id ≠ "" → r.port = "" → announceHandler ro now st r =
        some ⟨⟨400, "text/plain; charset=utf-8", "Missing port\n"⟩, st, none⟩) ∧
    (r.info_hash ≠ "" → r.peer_id ≠ "" → r.port ≠ "" → splits (effectiveAddr r) = false →
        announceHandler ro now st r =
        some ⟨⟨400, "text/plain; charset=utf-8", "Invalid IP address\n"⟩, st, none⟩) ∧
    (r.info_hash ≠ "" → r.peer_id ≠ "" → r.port ≠ "" → splits (effectiveAddr r) = true →
        ∀ out, announceHandler ro now st r = some out → out.resp.status = 200) := by
  refine ⟨?_, ?_, ?_, ?_, ?_⟩
  · intro h1
    simp [announceHandler, validate, h1, httpError, StatusBadRequest]
  · intro h1 h2
    simp [announceHandler, validate, h1, h2, httpError, StatusBadRequest]
  · intro h1 h2 h3
    simp [announceHandler, validate, h1, h2, h3, httpError, StatusBadRequest]
  · intro h1 h2 h3 h4
    unfold splits at h4
    cases hs : SplitHostPort (effectiveAddr r) with
    | error err => simp [announceHandler, validate, h1, h2, h3, hs, httpError, StatusBadRequest]
    | ok hp => simp [hs] at h4
  · intro h1 h2 h3 h4 out hout
    obtain ⟨host, port, -, hv⟩ := validate_of_wellFormed r ⟨h1, h2, h3, h4⟩
    unfold announceHandler at hout
    simp only [hv] at hout
    split at hout
    · exact absurd hout (by simp)
    · split at hout
      · exact absurd hout (by simp)
      · have := Option.some.inj hout
        rw [← this]
        rfl

/-! ## C3: a rejected announce has no effect -/

/-- C3: for every registry state and every announce that fails one of the four
checks, the handler replies with status 400 and the state after it is the state
before it: every content identifier is bound as before (none is created), every
swarm holds the records it held, and no sweep is started. -/
theorem rejected_announce_no_effect (ro : RangeOrder) (now : Int) (st : State) (r : Request)
    (h : r.info_hash = "" ∨ r.peer_id = "" ∨ r.port = "" ∨ splits (effectiveAddr r) = false) :
    ∃ out, announceHandler ro now st r = some out ∧ out.resp.status = 400 ∧
      out.st = st ∧ out.spawned = none ∧
      (∀ k, mapGet out.st.swarms k = mapGet st.swarms k) ∧
      (∀ k, peersOf out.st k = peersOf st k) := by
  have hn : ¬ wellFormed r := by
    rintro ⟨h1, h2, h3, h4⟩
    rcases h with h | h | h | h
    · exact h1 h
    · exact h2 h
    · exact h3 h
    · rw [h4] at h; exact absurd h (by simp)
  obtain ⟨resp, hr, hs⟩ := announceHandler_of_not_wellFormed ro now st r hn
  exact ⟨_, hr, hs, rfl, rfl, fun _ => rfl, fun _ => rfl⟩

/-- The scenario of the specification: an announce with `peer_id` omitted on
the empty registry. -/
theorem rejected_announce_no_effect_witness :
    ∃ out, announceHandler RangeOrder.stored 0 State.init ⟨"ABC", "", "6881", "", "1.2.3.4:5000"⟩
        = some out ∧ out.resp.status = 400 ∧
      out.st = State.init ∧ out.spawned = none ∧
      (∀ k, mapGet out.st.swarms k = mapGet State.init.swarms k) ∧
      (∀ k, peersOf out.st k = peersOf State.init k) :=
  rejected_announce_no_effect RangeOrder.stored 0 State.init ⟨"ABC", "", "6881", "", "1.2.3.4:5000"⟩
    (Or.inr (Or.inl rfl))

/-! ## Lines of a body: lemmas -/

theorem length_linesAux (acc cs : List Char) : (linesAux acc cs).length = cs.count '\n' := by
  induction cs generalizing acc with
  | nil => simp [linesAux]
  | cons c cs ih =>
    by_cases hc : c = '\n'
    · simp [linesAux, hc, ih]
    · simp [linesAux, hc, ih, List.count_cons]

theorem linesAux_line (acc l rest : List Char) (h : '\n' ∉ l) :
    linesAux acc (l ++ '\n' :: rest) = String.mk (acc.reverse ++ l) :: linesAux [] rest := by
  induction l generalizing acc with
  | nil => simp [linesAux]
  | cons c cs ih =>
    have hc : ¬ c = '\n' := fun e => h (by simp [e])
    have hcs : '\n' ∉ cs := fun e => h (List.mem_cons_of_mem _ e)
    simp [linesAux, hc, ih _ hcs]

theorem data_renderBody_cons (l : String) (ls : List String) :
    (renderBody (l :: ls)).data = l.data ++ '\n' :: (renderBody ls).data := by
  simp [renderBody, String.data_join]

/-- A body written from lines that hold no newline has exactly these lines. -/
theorem bodyLines_renderBody (ls : List String) (h : ∀ l ∈ ls, noNewline l) :
    bodyLines (renderBody ls) = ls := by
  induction ls with
  | nil => simp [bodyLines, renderBody, linesAux, String.data_join]
  | cons l ls ih =>
    have h1 : '\n' ∉ l.data := h l (List.mem_cons_self _ _)
    have h2 := ih (fun x hx => h x (List.mem_cons_of_mem _ hx))
    unfold bodyLines at h2 ⊢
    rw [data_renderBody_cons, linesAux_line [] l.data _ h1, h2]
    simp

theorem count_renderBody (ls : List String) :
    (renderBody ls).data.count '\n' = (ls.map (fun l => l.data.count '\n' + 1)).sum := by
  induction ls with
  | nil => simp [renderBody, String.data_join]
  | cons l ls ih =>
    rw [data_renderBody_cons]
    simp [List.count_append, List.count_cons, ih]
    omega

theorem snapshotMembers_perm (ro : RangeOrder) (sw : swarm) :
    (snapshotMembers ro sw).Perm (sw.Peers.map renderMember) := by
  unfold snapshotMembers
  exact (ro.perm sw.Peers).map _

/-- The number of lines of the body of a snapshot. -/
theorem length_bodyLines_snapshot (ro : RangeOrder) (sw : swarm) :
    (bodyLines (renderBody (snapshotMembers ro sw))).length = (sw.Peers.map linesOfMember).sum := by
  unfold bodyLines
  rw [length_linesAux, count_renderBody]
  have hp := (snapshotMembers_perm ro sw).map (fun l => l.data.count '\n' + 1)
  rw [hp.sum_eq, List.map_map]
  rfl

theorem noNewline_JoinHostPort (host port : String) (h1 : noNewline host) (h2 : noNewline port) :
    noNewline (JoinHostPort host port) := by
  unfold noNewline at *
  rw [JoinHostPort_eq]
  split
  · simp only [String.data_append, List.mem_append, not_or]
    exact ⟨⟨⟨by decide, h1⟩, by decide⟩, h2⟩
  · simp only [String.data_append, List.mem_append, not_or]
    exact ⟨⟨h1, by decide⟩, h2⟩

/-! ## The state after an announce: lemmas -/

theorem getOrCreateSwarm_get (st : State) (k : String) :
    mapGet (getOrCreateSwarm st k).2.swarms k = some (getOrCreateSwarm st k).1 := by
  unfold getOrCreateSwarm
  cases hg : mapGet st.swarms k with
  | some a => simp [hg]
  | none => simp [mapGet_mapSet_self]

theorem getOrCreateSwarm_get_ne (st : State) (k k2 : String) (h : k2 ≠ k) :
    mapGet (getOrCreateSwarm st k).2.swarms k2 = mapGet st.swarms k2 := by
  unfold getOrCreateSwarm
  cases hg : mapGet st.swarms k with
  | some a => simp
  | none => simp [mapGet_mapSet_ne _ _ _ _ h]

theorem getOrCreateSwarm_lt (st : State) (k : String) (hwf : st.WF) :
    (getOrCreateSwarm st k).1 < (getOrCreateSwarm st k).2.heap.length := by
  unfold getOrCreateSwarm
  cases hg : mapGet st.swarms k with
  | some a => simpa using hwf.valid_of_get hg
  | none => simp

theorem length_heap_getOrCreateSwarm (st : State) (k : String) :
    st.heap.length ≤ (getOrCreateSwarm st k).2.heap.length := by
  unfold getOrCreateSwarm
  cases hg : mapGet st.swarms k with
  | some a => simp
  | none => simp

/-- The swarm of the content identifier right after the upsert. -/
theorem peersOf_announced_self (now : Int) (st : State) (r : Request) (host : String)
    (hwf : st.WF) :
    peersOf (announced now st r host) r.info_hash =
      mapSet (peersOf st r.info_hash) r.peer_id ⟨r.peer_id, host, r.port, now⟩ := by
  have hlt := getOrCreateSwarm_lt st r.info_hash hwf
  have hg := getOrCreateSwarm_get st r.info_hash
  simp only [peersOf, State.swarmOf, announced, hg]
  rw [List.get?_eq_getElem?, List.getElem?_set_self hlt]

theorem length_mapSet_of_mem {V : Type} (m : GoMap V) (k : String) (v : V)
    (h : k ∈ mapKeys m) : (mapSet m k v).length = m.length := by
  have := congrArg List.length (mapKeys_mapSet_of_mem m k v h)
  simpa [mapKeys] using this

theorem one_le_linesOfMember (e : String × peer) : 1 ≤ linesOfMember e := by
  unfold linesOfMember; omega

theorem sum_linesOfMember_mapSet_le (m : GoMap peer) (k : String) (p : peer)
    (hk : k ∈ mapKeys m) (hp : linesOfMember (k, p) = 1) :
    ((mapSet m k p).map linesOfMember).sum ≤ (m.map linesOfMember).sum := by
  induction m with
  | nil => simp [mapKeys] at hk
  | cons e m ih =>
    obtain ⟨k1, v1⟩ := e
    by_cases h1 : k1 = k
    · have := one_le_linesOfMember (k1, v1)
      simp only [mapSet, h1, if_true, List.map_cons, List.sum_cons, hp]
      rw [h1] at this
      omega
    · have h2 : k ∈ mapKeys m := by
        simp only [mapKeys, List.map_cons, List.mem_cons] at hk
        rcases hk with hk | hk
        · exact absurd hk.symm h1
        · exact hk
      have := ih h2
      simp only [mapSet, h1, if_false, List.map_cons, List.sum_cons]
      omega

theorem linesOfMember_of_noNewline (k : String) (p : peer) (h1 : noNewline p.IP)
    (h2 : noNewline p.Port) : linesOfMember (k, p) = 1 := by
  have h := noNewline_JoinHostPort p.IP p.Port h1 h2
  unfold noNewline at h
  simp [linesOfMember, renderMember, List.count_eq_zero_of_not_mem h]

/-! ## C4: a repeated announce overwrites the entry of the peer -/

/-- C4, as stated, fails in its last clause: P1 announces ABC with port 6881,
then again with a port that holds a newline.  The swarm has the one member P1
both times, but the second reply has two newline-terminated lines where the
first had one. -/
theorem reannounce_lines_counterexample :
    ∃ out1 out2,
      announceHandler RangeOrder.stored 0 State.init ⟨"ABC", "P1", "6881", "", "1.2.3.4:5000"⟩
        = some out1 ∧
      announceHandler RangeOrder.stored 1 out1.st ⟨"ABC", "P1", "1\n2", "", "1.2.3.4:5000"⟩
        = some out2 ∧
      wellFormed ⟨"ABC", "P1", "1\n2", "", "1.2.3.4:5000"⟩ ∧
      mapKeys (peersOf out1.st "ABC") = ["P1"] ∧ mapKeys (peersOf out2.st "ABC") = ["P1"] ∧
      bodyLines out1.resp.body = ["1.2.3.4:6881"] ∧
      bodyLines out2.resp.body = ["1.2.3.4:1", "2"] :=
  ⟨⟨⟨200, "text/plain", "1.2.3.4:6881\n"⟩,
      ⟨[⟨[("P1", ⟨"P1", "1.2.3.4", "6881", 0⟩)]⟩], [("ABC", 0)]⟩, some "ABC"⟩,
    ⟨⟨200, "text/plain", "1.2.3.4:1\n2\n"⟩,
      ⟨[⟨[("P1", ⟨"P1", "1.2.3.4", "1\n2", 1⟩)]⟩], [("ABC", 0)]⟩, some "ABC"⟩,
    by decide, by decide, by decide, by decide, by decide, by decide, by decide⟩

/-! ## The sweep: lemmas -/

theorem sub64_eq_sub (a b : Int) (h1 : -(2 ^ 63) ≤ a - b) (h2 : a - b < 2 ^ 63) :
    sub64 a b = a - b := by
  unfold sub64
  rw [Int.emod_eq_of_lt (by omega) (by omega)]
  omega

theorem mapDelete_eq_filter {V : Type} (m : GoMap V) (k : String) :
    mapDelete m k = m.filter (fun e => decide (e.1 ≠ k)) := by
  induction m with
  | nil => simp [mapDelete]
  | cons e m ih =>
    obtain ⟨k1, v1⟩ := e
    by_cases h : k1 = k
    · simp [mapDelete, h, ih]
    · simp [mapDelete, h, ih]

/-- Deleting the keys of the entries of `es` that satisfy `q`, one after the
other, leaves the entries whose key is not the key of such an entry. -/
theorem foldl_mapDelete {V : Type} (q : V → Bool) (es m : GoMap V) :
    es.foldl (fun m e => if q e.2 then mapDelete m e.1 else m) m =
      m.filter (fun x => !(es.any (fun e => q e.2 && decide (e.1 = x.1)))) := by
  induction es generalizing m with
  | nil => simp
  | cons e es ih =>
    simp only [List.foldl_cons, ih]
    by_cases hq : q e.2 = true
    · simp only [hq, if_true, mapDelete_eq_filter, List.filter_filter]
      apply List.filter_congr
      intro x _
      by_cases hx : e.1 = x.1
      · simp [hq, hx]
      · have hx2 : ¬ x.1 = e.1 := fun h => hx h.symm
        simp [hq, hx, hx2]
    · simp only [hq]
      apply List.filter_congr
      intro x _
      simp [hq]

theorem eq_of_mem_of_key_eq {V : Type} (m : GoMap V) (hn : (mapKeys m).Nodup)
    (e x : String × V) (he : e ∈ m) (hx : x ∈ m) (hk : e.1 = x.1) : e = x := by
  have h1 := mapGet_of_mem_nodup m e.1 e.2 hn he
  have h2 := mapGet_of_mem_nodup m x.1 x.2 hn hx
  rw [hk, h2] at h1
  exact Prod.ext hk (Option.some.inj h1).symm

/-- The loop of `cleanSwarm` leaves exactly the entries that are not stale, in
whatever order it visits the map. -/
theorem evictStale_eq_filter (ro : RangeOrder) (now ttl : Int) (peers : GoMap peer)
    (hn : (mapKeys peers).Nodup) :
    evictStale ro now ttl peers = peers.filter (fun e => !(stale now ttl e.2)) := by
  unfold evictStale
  rw [foldl_mapDelete (stale now ttl)]
  apply List.filter_congr
  intro x hx
  congr 1
  by_cases hs : stale now ttl x.2 = true
  · rw [hs]
    refine List.any_eq_true.mpr ⟨x, (ro.perm peers).mem_iff.mpr hx, by simp [hs]⟩
  · have hs2 : stale now ttl x.2 = false := by simpa using hs
    rw [hs2]
    apply Bool.eq_false_iff.mpr
    intro hany
    obtain ⟨e, he, hq⟩ := List.any_eq_true.mp hany
    simp only [Bool.and_eq_true, decide_eq_true_eq] at hq
    have := eq_of_mem_of_key_eq peers hn e x ((ro.perm peers).mem_iff.mp he) hx hq.2
    rw [this, hs2] at hq
    exact absurd hq.1 (by simp)

theorem mapKeys_filter_nodup {V : Type} (m : GoMap V) (q : String × V → Bool)
    (hn : (mapKeys m).Nodup) : (mapKeys (m.filter q)).Nodup := by
  unfold mapKeys at *
  exact hn.sublist ((List.filter_sublist m).map Prod.fst)

theorem mapGet_filter_of_true {V : Type} (m : GoMap V) (q : String × V → Bool)
    (hn : (mapKeys m).Nodup) (k : String) (v : V) (h : mapGet m k = some v)
    (hq : q (k, v) = true) : mapGet (m.filter q) k = some v :=
  mapGet_of_mem_nodup _ _ _ (mapKeys_filter_nodup m q hn)
    (List.mem_filter.mpr ⟨mapGet_mem _ _ _ h, hq⟩)

theorem mapGet_filter_of_false {V : Type} (m : GoMap V) (q : String × V → Bool)
    (hn : (mapKeys m).Nodup) (k : String) (v : V) (h : mapGet m k = some v)
    (hq : q (k, v) = false) : mapGet (m.filter q) k = none := by
  apply (mapGet_eq_none_iff _ _).mpr
  intro hk
  obtain ⟨x, hx, hxk⟩ := List.mem_map.mp hk
  obtain ⟨hxm, hxq⟩ := List.mem_filter.mp hx
  have := eq_of_mem_of_key_eq m hn x (k, v) hxm (mapGet_mem _ _ _ h) hxk
  rw [this, hq] at hxq
  exact absurd hxq (by simp)

theorem State.WF.peers_nodup {st : State} (hwf : st.WF) (k : String) :
    (mapKeys (peersOf st k)).Nodup := by
  unfold peersOf State.swarmOf
  cases hg : mapGet st.swarms k with
  | none => simp [mapKeys]
  | some a =>
    simp only
    cases hh : st.heap.get? a with
    | none => simp [mapKeys]
    | some sw => exact hwf.2.2.2 sw (List.get?_mem hh)

/-- The sweep of a bound content identifier runs, and the swarm it leaves. -/
theorem cleanSwarm_of_bound (ro : RangeOrder) (now : Int) (st : State) (k : String) (a : Nat)
    (hwf : st.WF) (hb : mapGet st.swarms k = some a) :
    cleanSwarm ro now st k =
      some ⟨st.heap.set a ⟨evictStale ro now ttlSeconds (peersOf st k)⟩, st.swarms⟩ := by
  obtain ⟨sw, hsw, hof⟩ := hwf.swarmOf_of_get hb
  simp only [cleanSwarm, hb, hsw, peersOf, hof]

theorem peersOf_set_self (st : State) (k : String) (a : Nat) (sw : swarm)
    (hb : mapGet st.swarms k = some a) (hlt : a < st.heap.length) :
    peersOf ⟨st.heap.set a sw, st.swarms⟩ k = sw.Peers := by
  simp only [peersOf, State.swarmOf, hb]
  rw [List.get?_eq_getElem?, List.getElem?_set_self hlt]

/-! ## C5: the sweep removes exactly the stale records -/

/-- C5: for every swarm of a running process and every current time `now`,
`cleanSwarm` runs and removes exactly the records with `now - LastSeen > 1800`
(the subtraction of the code, which is the difference of the integers whenever
that difference is in the range of `int64`) and keeps every other record
unchanged and in place; no record appears; in particular a record with `now - LastSeen = 1800`
is kept and one with `now - LastSeen = 1801` is removed. -/
theorem cleanSwarm_removes_exactly_stale (ro : RangeOrder) (now : Int) (st : State)
    (k : String) (a : Nat) (hwf : st.WF) (hb : mapGet st.swarms k = some a) :
    ∃ st1, cleanSwarm ro now st k = some st1 ∧
      peersOf st1 k = (peersOf st k).filter (fun e => !(decide (sub64 now e.2.LastSeen > 1800))) ∧
      (∀ id p, mapGet (peersOf st k) id = some p →
        (sub64 now p.LastSeen > 1800 → mapGet (peersOf st1 k) id = none) ∧
        (¬ sub64 now p.LastSeen > 1800 → mapGet (peersOf st1 k) id = some p) ∧
        (-(2 ^ 63) ≤ now - p.LastSeen → now - p.LastSeen < 2 ^ 63 →
          (now - p.LastSeen > 1800 ↔ mapGet (peersOf st1 k) id = none)) ∧
        (now - p.LastSeen = 1800 → mapGet (peersOf st1 k) id = some p) ∧
        (now - p.LastSeen = 1801 → mapGet (peersOf st1 k) id = none)) ∧
      (∀ id, mapGet (peersOf st k) id = none → mapGet (peersOf st1 k) id = none) := by
  have hn := hwf.peers_nodup k
  have hlt := hwf.valid_of_get hb
  have hp : peersOf ⟨st.heap.set a ⟨evictStale ro now ttlSeconds (peersOf st k)⟩, st.swarms⟩ k =
      (peersOf st k).filter (fun e => !(decide (sub64 now e.2.LastSeen > 1800))) := by
    rw [peersOf_set_self st k a _ hb hlt, evictStale_eq_filter ro now ttlSeconds _ hn]
    rfl
  refine ⟨_, cleanSwarm_of_bound ro now st k a hwf hb, hp, ?_, ?_⟩
  · intro id p hg
    rw [hp]
    have hstale : sub64 now p.LastSeen > 1800 → mapGet ((peersOf st k).filter
        (fun e => !(decide (sub64 now e.2.LastSeen > 1800)))) id = none := fun h =>
      mapGet_filter_of_false _ _ hn id p hg (by simp [h])
    have hfresh : ¬ sub64 now p.LastSeen > 1800 → mapGet ((peersOf st k).filter
        (fun e => !(decide (sub64 now e.2.LastSeen > 1800)))) id = some p := fun h =>
      mapGet_filter_of_true _ _ hn id p hg (by simpa using h)
    refine ⟨hstale, hfresh, ?_, ?_, ?_⟩
    · intro h1 h2
      rw [← sub64_eq_sub _ _ h1 h2]
      constructor
      · exact hstale
      · intro hnone
        by_contra hc
        rw [hfresh hc] at hnone
        exact absurd hnone (by simp)
    · intro h
      apply hfresh
      rw [sub64_eq_sub _ _ (by omega) (by omega)]
      omega
    · intro h
      apply hstale
      rw [sub64_eq_sub _ _ (by omega) (by omega)]
      omega
  · intro id hg
    rw [hp]
    apply (mapGet_eq_none_iff _ _).mpr
    intro hk
    apply (mapGet_eq_none_iff _ _).mp hg
    unfold mapKeys at *
    exact ((List.filter_sublist _).map Prod.fst).subset hk

/-- A sweep at time 2000 of a swarm whose records were last seen at 199, 200
and 1500. -/
theorem cleanSwarm_removes_exactly_stale_witness :
    ∃ st1, cleanSwarm RangeOrder.reversed 2000
        ⟨[⟨[("P1", ⟨"P1", "1.2.3.4", "6881", 199⟩), ("P2", ⟨"P2", "5.6.7.8", "6882", 200⟩),
          ("P3", ⟨"P3", "9.9.9.9", "6883", 1500⟩)]⟩], [("ABC", 0)]⟩ "ABC" = some st1 ∧
      peersOf st1 "ABC" =
        (peersOf ⟨[⟨[("P1", ⟨"P1", "1.2.3.4", "6881", 199⟩), ("P2", ⟨"P2", "5.6.7.8", "6882", 200⟩),
          ("P3", ⟨"P3", "9.9.9.9", "6883", 1500⟩)]⟩], [("ABC", 0)]⟩ "ABC").filter
          (fun e => !(decide (sub64 2000 e.2.LastSeen > 1800))) ∧
      (∀ id p, mapGet (peersOf ⟨[⟨[("P1", ⟨"P1", "1.2.3.4", "6881", 199⟩),
          ("P2", ⟨"P2", "5.6.7.8", "6882", 200⟩),
          ("P3", ⟨"P3", "9.9.9.9", "6883", 1500⟩)]⟩], [("ABC", 0)]⟩ "ABC") id = some p →
        (sub64 2000 p.LastSeen > 1800 → mapGet (peersOf st1 "ABC") id = none) ∧
        (¬ sub64 2000 p.LastSeen > 1800 → mapGet (peersOf st1 "ABC") id = some p) ∧
        (-(2 ^ 63) ≤ 2000 - p.LastSeen → 2000 - p.LastSeen < 2 ^ 63 →
          (2000 - p.LastSeen > 1800 ↔ mapGet (peersOf st1 "ABC") id = none)) ∧
        (2000 - p.LastSeen = 1800 → mapGet (peersOf st1 "ABC") id = some p) ∧
        (2000 - p.LastSeen = 1801 → mapGet (peersOf st1 "ABC") id = none)) ∧
      (∀ id, mapGet (peersOf ⟨[⟨[("P1", ⟨"P1", "1.2.3.4", "6881", 199⟩),
          ("P2", ⟨"P2", "5.6.7.8", "6882", 200⟩),
          ("P3", ⟨"P3", "9.9.9.9", "6883", 1500⟩)]⟩], [("ABC", 0)]⟩ "ABC") id = none →
        mapGet (peersOf st1 "ABC") id = none) :=
  cleanSwarm_removes_exactly_stale RangeOrder.reversed 2000
    ⟨[⟨[("P1", ⟨"P1", "1.2.3.4", "6881", 199⟩), ("P2", ⟨"P2", "5.6.7.8", "6882", 200⟩),
      ("P3", ⟨"P3", "9.9.9.9", "6883", 1500⟩)]⟩], [("ABC", 0)]⟩ "ABC" 0 (by decide) (by decide)

/-! ## Frame and invariant lemmas -/

theorem State.WF.addr_inj {st : State} (hwf : st.WF) {k1 k2 : String} {a : Nat}
    (h1 : mapGet st.swarms k1 = some a) (h2 : mapGet st.swarms k2 = some a) : k1 = k2 := by
  have := List.inj_on_of_nodup_map hwf.2.1 (mapGet_mem _ _ _ h1) (mapGet_mem _ _ _ h2) rfl
  exact congrArg Prod.fst this

/-- Writing the swarm object at one address leaves the swarm of every content
identifier bound to another address as it was. -/
theorem swarmOf_set_ne (st : State) (k : String) (a : Nat) (sw : swarm)
    (h : ∀ a2, mapGet st.swarms k = some a2 → a2 ≠ a) :
    State.swarmOf ⟨st.heap.set a sw, st.swarms⟩ k = st.swarmOf k := by
  unfold State.swarmOf
  cases hg : mapGet st.swarms k with
  | none => rfl
  | some a2 =>
    have hne : a ≠ a2 := fun e => h a2 hg e.symm
    simp only [List.get?_eq_getElem?, List.getElem?_set_ne hne]

theorem WF_set (st : State) (a : Nat) (sw : swarm) (hwf : st.WF)
    (hn : (mapKeys sw.Peers).Nodup) : State.WF ⟨st.heap.set a sw, st.swarms⟩ := by
  refine ⟨hwf.1, hwf.2.1, ?_, ?_⟩
  · intro e he
    simpa using hwf.2.2.1 e he
  · intro x hx
    rcases List.mem_or_eq_of_mem_set hx with h | h
    · exact hwf.2.2.2 x h
    · rw [h]; exact hn

theorem WF_getOrCreateSwarm (st : State) (k : String) (hwf : st.WF) :
    (getOrCreateSwarm st k).2.WF := by
  unfold getOrCreateSwarm
  cases hg : mapGet st.swarms k with
  | some a => exact hwf
  | none =>
    simp only
    refine ⟨mapKeys_mapSet_nodup _ _ _ hwf.1, ?_, ?_, ?_⟩
    · simp only [mapSet_of_not_mem _ _ _ hg, List.map_append, List.map_cons, List.map_nil]
      refine List.Nodup.append hwf.2.1 (List.nodup_singleton _) ?_
      intro x hx hx2
      obtain ⟨e, he, hex⟩ := List.mem_map.mp hx
      have := hwf.2.2.1 e he
      rw [hex, List.mem_singleton.mp hx2] at this
      exact absurd this (lt_irrefl _)
    · intro e he
      simp only [mapSet_of_not_mem _ _ _ hg, List.mem_append, List.mem_singleton] at he
      simp only [List.length_append, List.length_singleton]
      rcases he with he | he
      · exact Nat.lt_succ_of_lt (hwf.2.2.1 e he)
      · rw [he]; exact Nat.lt_succ_self _
    · intro x hx
      simp only [List.mem_append, List.mem_singleton] at hx
      rcases hx with hx | hx
      · exact hwf.2.2.2 x hx
      · rw [hx]; simp [mapKeys]

theorem WF_announced (now : Int) (st : State) (r : Request) (host : String) (hwf : st.WF) :
    (announced now st r host).WF :=
  WF_set (getOrCreateSwarm st r.info_hash).2 _ _ (WF_getOrCreateSwarm st r.info_hash hwf)
    (mapKeys_mapSet_nodup _ _ _ (hwf.peers_nodup r.info_hash))

/-- The registry binds every content identifier it bound, at the same address. -/
theorem getOrCreateSwarm_mono (st : State) (k k2 : String) (a : Nat)
    (h : mapGet st.swarms k2 = some a) : mapGet (getOrCreateSwarm st k).2.swarms k2 = some a := by
  by_cases hk : k2 = k
  · subst hk
    simp [getOrCreateSwarm, h]
  · rw [getOrCreateSwarm_get_ne st k k2 hk]; exact h

theorem swarmOf_getOrCreateSwarm_ne (st : State) (k k2 : String) (hwf : st.WF) (hk : k2 ≠ k) :
    (getOrCreateSwarm st k).2.swarmOf k2 = st.swarmOf k2 := by
  unfold State.swarmOf
  rw [getOrCreateSwarm_get_ne st k k2 hk]
  cases hg2 : mapGet st.swarms k2 with
  | none => rfl
  | some a2 =>
    have hlt := hwf.valid_of_get hg2
    unfold getOrCreateSwarm
    cases hg : mapGet st.swarms k with
    | some a => rfl
    | none =>
      simp only [List.get?_eq_getElem?]
      exact List.getElem?_append_left hlt

/-- An announce leaves the swarm of every other content identifier as it was. -/
theorem swarmOf_announced_ne (now : Int) (st : State) (r : Request) (host : String)
    (k : String) (hwf : st.WF) (hk : k ≠ r.info_hash) :
    (announced now st r host).swarmOf k = st.swarmOf k := by
  rw [← swarmOf_getOrCreateSwarm_ne st r.info_hash k hwf hk]
  apply swarmOf_set_ne (getOrCreateSwarm st r.info_hash).2
  intro a2 h2 heq
  rw [heq] at h2
  exact hk ((WF_getOrCreateSwarm st r.info_hash hwf).addr_inj h2
    (getOrCreateSwarm_get st r.info_hash))

theorem mapGet_swarms_announced (now : Int) (st : State) (r : Request) (host : String)
    (k : String) (hk : k ≠ r.info_hash) :
    mapGet (announced now st r host).swarms k = mapGet st.swarms k :=
  getOrCreateSwarm_get_ne st r.info_hash k hk

theorem peersOf_congr (st st1 : State) (k : String) (h : st1.swarmOf k = st.swarmOf k) :
    peersOf st1 k = peersOf st k := by
  unfold peersOf; rw [h]

/-- A sweep leaves the swarm of every other content identifier as it was. -/
theorem swarmOf_cleanSwarm_ne (ro : RangeOrder) (now : Int) (st st1 : State) (k k2 : String)
    (hwf : st.WF) (hc : cleanSwarm ro now st k = some st1) (hk : k2 ≠ k) :
    st1.swarmOf k2 = st.swarmOf k2 ∧ st1.swarms = st.swarms := by
  cases hb : mapGet st.swarms k with
  | none => simp [cleanSwarm, hb] at hc
  | some a =>
    rw [cleanSwarm_of_bound ro now st k a hwf hb] at hc
    have := Option.some.inj hc
    rw [← this]
    refine ⟨swarmOf_set_ne st k2 a _ ?_, rfl⟩
    intro a2 h2 heq
    rw [heq] at h2
    exact hk (hwf.addr_inj h2 hb)

theorem WF_cleanSwarm (ro : RangeOrder) (now : Int) (st st1 : State) (k : String)
    (hwf : st.WF) (hc : cleanSwarm ro now st k = some st1) : st1.WF := by
  cases hb : mapGet st.swarms k with
  | none => simp [cleanSwarm, hb] at hc
  | some a =>
    rw [cleanSwarm_of_bound ro now st k a hwf hb] at hc
    have := Option.some.inj hc
    rw [← this]
    apply WF_set st a _ hwf
    rw [evictStale_eq_filter ro now ttlSeconds _ (hwf.peers_nodup k)]
    exact mapKeys_filter_nodup _ _ (hwf.peers_nodup k)

/-- What one transition is, on a state of a running process. -/
theorem step_announce (ro : RangeOrder) (now : Int) (st : State) (r : Request) (hwf : st.WF) :
    (wellFormed r ∧ ∃ host port, SplitHostPort (effectiveAddr r) = .ok (host, port) ∧
        step st (.announce ro now r) = some (announced now st r host)) ∨
      (¬ wellFormed r ∧ step st (.announce ro now r) = some st) := by
  by_cases hr : wellFormed r
  · obtain ⟨host, port, hs, hv⟩ := validate_of_wellFormed r hr
    refine Or.inl ⟨hr, host, port, hs, ?_⟩
    simp [step, announceHandler_of_validate ro now st r host hwf hv]
  · obtain ⟨resp, h, -⟩ := announceHandler_of_not_wellFormed ro now st r hr
    exact Or.inr ⟨hr, by simp [step, h]⟩

theorem step_WF (st st1 : State) (e : Event) (hwf : st.WF) (h : step st e = some st1) :
    st1.WF := by
  cases e with
  | announce ro now r =>
    rcases step_announce ro now st r hwf with ⟨-, host, port, -, hs⟩ | ⟨-, hs⟩
    · rw [hs] at h
      rw [← Option.some.inj h]
      exact WF_announced now st r host hwf
    · rw [hs] at h
      rw [← Option.some.inj h]
      exact hwf
  | sweep ro now k => exact WF_cleanSwarm ro now st st1 k hwf h

theorem run_WF (st st1 : State) (es : List Event) (hwf : st.WF) (h : run st es = some st1) :
    st1.WF := by
  induction es generalizing st with
  | nil =>
    simp only [run] at h
    rw [← Option.some.inj h]; exact hwf
  | cons e es ih =>
    simp only [run] at h
    cases hs : step st e with
    | none => simp [hs] at h
    | some st2 =>
      simp only [hs] at h
      exact ih st2 (step_WF st st2 e hwf hs) h

/-- Every state a run reaches from start-up has the shape `State.WF`. -/
theorem WF_of_run_init (st : State) (es : List Event) (h : run State.init es = some st) :
    st.WF :=
  run_WF State.init st es (by decide) h

/-! ## C7: swarm isolation -/

/-- C7: for all content identifiers A and B with A different from B, in every
state of a running process, an announce to A is served and leaves the binding
of B and the swarm registered under B (its presence and every one of its peer
records) unchanged; so does the sweep of A the announce starts, whenever it
runs; and a reply with status 200 is written from lines each of which renders a
member of the swarm of A. -/
theorem swarm_isolation (ro roS : RangeOrder) (now nowS : Int) (st : State) (r : Request)
    (B : String) (hwf : st.WF) (hAB : r.info_hash ≠ B) :
    ∃ out, announceHandler ro now st r = some out ∧
      mapGet out.st.swarms B = mapGet st.swarms B ∧ out.st.swarmOf B = st.swarmOf B ∧
      (∀ h, out.spawned = some h → h = r.info_hash ∧
        ∃ st2, cleanSwarm roS nowS out.st h = some st2 ∧
          mapGet st2.swarms B = mapGet st.swarms B ∧ st2.swarmOf B = st.swarmOf B) ∧
      (out.resp.status = 200 → ∃ ls, out.resp.body = renderBody ls ∧
        ∀ l ∈ ls, ∃ e ∈ peersOf out.st r.info_hash, l = renderMember e) := by
  have hBA : B ≠ r.info_hash := fun e => hAB e.symm
  by_cases hr : wellFormed r
  · obtain ⟨host, port, -, hv⟩ := validate_of_wellFormed r hr
    have hwf1 := WF_announced now st r host hwf
    have hbound : mapGet (announced now st r host).swarms r.info_hash =
        some (getOrCreateSwarm st r.info_hash).1 := getOrCreateSwarm_get st r.info_hash
    refine ⟨_, announceHandler_of_validate ro now st r host hwf hv,
      mapGet_swarms_announced now st r host B hBA,
      swarmOf_announced_ne now st r host B hwf hBA, ?_, ?_⟩
    · intro h hh
      have hh2 : h = r.info_hash := (Option.some.inj hh).symm
      subst hh2
      refine ⟨rfl, _, cleanSwarm_of_bound roS nowS _ _ _ hwf1 hbound, ?_, ?_⟩
      · exact mapGet_swarms_announced now st r host B hBA
      · have h1 := swarmOf_cleanSwarm_ne roS nowS _ _ r.info_hash B hwf1
          (cleanSwarm_of_bound roS nowS _ _ _ hwf1 hbound) hBA
        rw [h1.1]
        exact swarmOf_announced_ne now st r host B hwf hBA
    · intro _
      refine ⟨_, rfl, ?_⟩
      intro l hl
      simp only [peersOf_announced_self now st r host hwf]
      obtain ⟨e, he, hel⟩ := List.mem_map.mp hl
      exact ⟨e, (ro.perm _).mem_iff.mp he, hel.symm⟩
  · obtain ⟨resp, h, hs⟩ := announceHandler_of_not_wellFormed ro now st r hr
    refine ⟨_, h, rfl, rfl, ?_, ?_⟩
    · intro x hx
      exact absurd hx (by simp)
    · intro h200
      simp only [hs] at h200
      exact absurd h200 (by decide)

/-- P2 announces ABC while P9 is the one member of XYZ. -/
theorem swarm_isolation_witness :
    ∃ out, announceHandler RangeOrder.stored 10
        ⟨[⟨[("P1", ⟨"P1", "1.2.3.4", "6881", 0⟩)]⟩, ⟨[("P9", ⟨"P9", "9.9.9.9", "6999", 0⟩)]⟩],
          [("ABC", 0), ("XYZ", 1)]⟩
        ⟨"ABC", "P2", "6882", "", "5.6.7.8:4000"⟩ = some out ∧
      mapGet out.st.swarms "XYZ" = mapGet (State.mk
        [⟨[("P1", ⟨"P1", "1.2.3.4", "6881", 0⟩)]⟩, ⟨[("P9", ⟨"P9", "9.9.9.9", "6999", 0⟩)]⟩]
          [("ABC", 0), ("XYZ", 1)]).swarms "XYZ" ∧
      out.st.swarmOf "XYZ" = (State.mk
        [⟨[("P1", ⟨"P1", "1.2.3.4", "6881", 0⟩)]⟩, ⟨[("P9", ⟨"P9", "9.9.9.9", "6999", 0⟩)]⟩]
          [("ABC", 0), ("XYZ", 1)]).swarmOf "XYZ" ∧
      (∀ h, out.spawned = some h → h = "ABC" ∧
        ∃ st2, cleanSwarm RangeOrder.stored 5000 out.st h = some st2 ∧
          mapGet st2.swarms "XYZ" = mapGet (State.mk
            [⟨[("P1", ⟨"P1", "1.2.3.4", "6881", 0⟩)]⟩, ⟨[("P9", ⟨"P9", "9.9.9.9", "6999", 0⟩)]⟩]
              [("ABC", 0), ("XYZ", 1)]).swarms "XYZ" ∧
          st2.swarmOf "XYZ" = (State.mk
            [⟨[("P1", ⟨"P1", "1.2.3.4", "6881", 0⟩)]⟩, ⟨[("P9", ⟨"P9", "9.9.9.9", "6999", 0⟩)]⟩]
              [("ABC", 0), ("XYZ", 1)]).swarmOf "XYZ") ∧
      (out.resp.status = 200 → ∃ ls, out.resp.body = renderBody ls ∧
        ∀ l ∈ ls, ∃ e ∈ peersOf out.st "ABC", l = renderMember e) :=
  swarm_isolation RangeOrder.stored RangeOrder.stored 10 5000
    ⟨[⟨[("P1", ⟨"P1", "1.2.3.4", "6881", 0⟩)]⟩, ⟨[("P9", ⟨"P9", "9.9.9.9", "6999", 0⟩)]⟩],
      [("ABC", 0), ("XYZ", 1)]⟩
    ⟨"ABC", "P2", "6882", "", "5.6.7.8:4000"⟩ "XYZ" (by decide) (by decide)

/-! ## C8: the body of a successful reply -/

/-- C8, as stated, fails: P1 announces ABC from `1.2.3.4:5000` with a port that
holds a newline.  The swarm has one member, and the body of the reply has two
newline-terminated lines, neither of which is the rendered member. -/
theorem reply_lines_counterexample :
    ∃ out, announceHandler RangeOrder.stored 0 State.init
        ⟨"ABC", "P1", "1\n2", "", "1.2.3.4:5000"⟩ = some out ∧
      out.resp.status = 200 ∧
      peersOf out.st "ABC" = [("P1", ⟨"P1", "1.2.3.4", "1\n2", 0⟩)] ∧
      out.resp.body = "1.2.3.4:1\n2\n" ∧
      bodyLines out.resp.body = ["1.2.3.4:1", "2"] ∧
      (bodyLines out.resp.body).length ≠ (peersOf out.st "ABC").length :=
  ⟨⟨⟨200, "text/plain", "1.2.3.4:1\n2\n"⟩,
      ⟨[⟨[("P1", ⟨"P1", "1.2.3.4", "1\n2", 0⟩)]⟩], [("ABC", 0)]⟩, some "ABC"⟩,
    by decide, by decide, by decide, by decide, by decide, by decide⟩

/-! ## C9: the effective address and the `ip` override -/

/-- C9 at the failing input: without an override the IP is taken from the
remote address `5.6.7.8:4000` and recorded as `5.6.7.8`; the override
`1.2.3.4:6881` is taken instead of the remote address and recorded as
`1.2.3.4`; but the override `1.2.3.4`, a bare address with no port component,
does not pass `net.SplitHostPort` (missing port): the announce is answered 400
`Invalid IP address` and nothing is recorded. -/
theorem bare_ip_override_rejected :
    (announceHandler RangeOrder.stored 7 State.init
      ⟨"ABC", "P1", "6881", "", "5.6.7.8:4000"⟩).map (fun out => (out.resp.status, out.st)) =
      some (200, ⟨[⟨[("P1", ⟨"P1", "5.6.7.8", "6881", 7⟩)]⟩], [("ABC", 0)]⟩) ∧
    (announceHandler RangeOrder.stored 7 State.init
      ⟨"ABC", "P1", "6881", "1.2.3.4:6881", "5.6.7.8:4000"⟩).map
        (fun out => (out.resp.status, out.st)) =
      some (200, ⟨[⟨[("P1", ⟨"P1", "1.2.3.4", "6881", 7⟩)]⟩], [("ABC", 0)]⟩) ∧
    effectiveAddr ⟨"ABC", "P1", "6881", "1.2.3.4", "5.6.7.8:4000"⟩ = "1.2.3.4" ∧
    SplitHostPort "1.2.3.4" = .error .missingPort ∧
    announceHandler RangeOrder.stored 7 State.init ⟨"ABC", "P1", "6881", "1.2.3.4", "5.6.7.8:4000"⟩ =
      some ⟨⟨400, "text/plain; charset=utf-8", "Invalid IP address\n"⟩, State.init, none⟩ := by
  refine ⟨by decide, by decide, by decide, by decide, by decide⟩

/-! ## C10: the registry never shrinks -/

theorem step_mono (st st1 : State) (e : Event) (k : String) (a : Nat) (hwf : st.WF)
    (h : step st e = some st1) (hk : mapGet st.swarms k = some a) :
    mapGet st1.swarms k = some a := by
  cases e with
  | announce ro now r =>
    rcases step_announce ro now st r hwf with ⟨-, host, port, -, hs⟩ | ⟨-, hs⟩
    · rw [hs] at h
      rw [← Option.some.inj h]
      exact getOrCreateSwarm_mono st r.info_hash k a hk
    · rw [hs] at h
      rw [← Option.some.inj h]
      exact hk
  | sweep ro now k2 =>
    simp only [step] at h
    cases hb : mapGet st.swarms k2 with
    | none => simp [cleanSwarm, hb] at h
    | some a2 =>
      rw [cleanSwarm_of_bound ro now st k2 a2 hwf hb] at h
      rw [← Option.some.inj h]
      exact hk

theorem run_mono (st st1 : State) (es : List Event) (k : String) (a : Nat) (hwf : st.WF)
    (h : run st es = some st1) (hk : mapGet st.swarms k = some a) :
    mapGet st1.swarms k = some a := by
  induction es generalizing st with
  | nil =>
    simp only [run] at h
    rw [← Option.some.inj h]; exact hk
  | cons e es ih =>
    simp only [run] at h
    cases hs : step st e with
    | none => simp [hs] at h
    | some st2 =>
      simp only [hs] at h
      exact ih st2 (step_WF st st2 e hwf hs) h (step_mono st st2 e k a hwf hs hk)

/-- C10: in every run of announces and sweeps from start-up, the registry
holds one entry per content identifier, and a content identifier that is a key
of the registry at some point is a key in every later state, bound to the same
swarm object, which stays allocated: get-or-create on it returns that object
and leaves the registry as it is.  This holds whatever the sweeps removed. -/
theorem registry_never_shrinks (es1 es2 : List Event) (st1 st2 : State)
    (h1 : run State.init es1 = some st1) (h2 : run st1 es2 = some st2) :
    (mapKeys st2.swarms).Nodup ∧
      ∀ k a, mapGet st1.swarms k = some a →
        mapGet st2.swarms k = some a ∧ (∃ sw, st2.heap.get? a = some sw) ∧
          getOrCreateSwarm st2 k = (a, st2) := by
  have hwf1 : st1.WF := run_WF State.init st1 es1 (by decide) h1
  have hwf2 : st2.WF := run_WF st1 st2 es2 hwf1 h2
  refine ⟨hwf2.1, ?_⟩
  intro k a hk
  have hk2 := run_mono st1 st2 es2 k a hwf1 h2 hk
  obtain ⟨sw, hsw, -⟩ := hwf2.swarmOf_of_get hk2
  exact ⟨hk2, ⟨sw, hsw⟩, by simp [getOrCreateSwarm, hk2]⟩

/-- P1 announces ABC at time 0; a sweep at time 5000 empties the swarm; P2
announces XYZ.  ABC is still bound to the object at address 0, now empty. -/
theorem registry_never_shrinks_witness :
    run State.init [.announce RangeOrder.stored 0 ⟨"ABC", "P1", "6881", "", "1.2.3.4:5000"⟩] =
      some ⟨[⟨[("P1", ⟨"P1", "1.2.3.4", "6881", 0⟩)]⟩], [("ABC", 0)]⟩ ∧
    run ⟨[⟨[("P1", ⟨"P1", "1.2.3.4", "6881", 0⟩)]⟩], [("ABC", 0)]⟩
        [.sweep RangeOrder.stored 5000 "ABC",
          .announce RangeOrder.stored 5001 ⟨"XYZ", "P2", "6882", "", "5.6.7.8:4000"⟩] =
      some ⟨[⟨[]⟩, ⟨[("P2", ⟨"P2", "5.6.7.8", "6882", 5001⟩)]⟩], [("ABC", 0), ("XYZ", 1)]⟩ ∧
    ((mapKeys (State.mk [⟨[]⟩, ⟨[("P2", ⟨"P2", "5.6.7.8", "6882", 5001⟩)]⟩]
        [("ABC", 0), ("XYZ", 1)]).swarms).Nodup ∧
      ∀ k a, mapGet (State.mk [⟨[("P1", ⟨"P1", "1.2.3.4", "6881", 0⟩)]⟩]
          [("ABC", 0)]).swarms k = some a →
        mapGet (State.mk [⟨[]⟩, ⟨[("P2", ⟨"P2", "5.6.7.8", "6882", 5001⟩)]⟩]
          [("ABC", 0), ("XYZ", 1)]).swarms k = some a ∧
        (∃ sw, (State.mk [⟨[]⟩, ⟨[("P2", ⟨"P2", "5.6.7.8", "6882", 5001⟩)]⟩]
          [("ABC", 0), ("XYZ", 1)]).heap.get? a = some sw) ∧
        getOrCreateSwarm (State.mk [⟨[]⟩, ⟨[("P2", ⟨"P2", "5.6.7.8", "6882", 5001⟩)]⟩]
          [("ABC", 0), ("XYZ", 1)]) k =
          (a, State.mk [⟨[]⟩, ⟨[("P2", ⟨"P2", "5.6.7.8", "6882", 5001⟩)]⟩]
            [("ABC", 0), ("XYZ", 1)])) :=
  ⟨by decide, by decide,
    registry_never_shrinks
      [.announce RangeOrder.stored 0 ⟨"ABC", "P1", "6881", "", "1.2.3.4:5000"⟩]
      [.sweep RangeOrder.stored 5000 "ABC",
        .announce RangeOrder.stored 5001 ⟨"XYZ", "P2", "6882", "", "5.6.7.8:4000"⟩]
      ⟨[⟨[("P1", ⟨"P1", "1.2.3.4", "6881", 0⟩)]⟩], [("ABC", 0)]⟩
      ⟨[⟨[]⟩, ⟨[("P2", ⟨"P2", "5.6.7.8", "6882", 5001⟩)]⟩], [("ABC", 0), ("XYZ", 1)]⟩
      (by decide) (by decide)⟩

/-! ## C6: a peer that is not announced again is evicted after the window -/

theorem peersOf_cleanSwarm_self (ro : RangeOrder) (now : Int) (st st1 : State) (k : String)
    (hwf : st.WF) (hc : cleanSwarm ro now st k = some st1) :
    peersOf st1 k = (peersOf st k).filter (fun e => !(stale now ttlSeconds e.2)) := by
  cases hb : mapGet st.swarms k with
  | none => simp [cleanSwarm, hb] at hc
  | some a =>
    rw [cleanSwarm_of_bound ro now st k a hwf hb] at hc
    rw [← Option.some.inj hc, peersOf_set_self st k a _ hb (hwf.valid_of_get hb),
      evictStale_eq_filter ro now ttlSeconds _ (hwf.peers_nodup k)]

theorem peersOf_cleanSwarm_ne (ro : RangeOrder) (now : Int) (st st1 : State) (k k2 : String)
    (hwf : st.WF) (hc : cleanSwarm ro now st k = some st1) (hk : k2 ≠ k) :
    peersOf st1 k2 = peersOf st k2 :=
  peersOf_congr st st1 k2 (swarmOf_cleanSwarm_ne ro now st st1 k k2 hwf hc hk).1

theorem mapGet_of_mapGet_filter {V : Type} (m : GoMap V) (q : String × V → Bool)
    (hn : (mapKeys m).Nodup) (k : String) (v : V) (h : mapGet (m.filter q) k = some v) :
    mapGet m k = some v ∧ q (k, v) = true := by
  have hm := List.mem_filter.mp (mapGet_mem _ _ _ h)
  exact ⟨mapGet_of_mem_nodup m k v hn hm.1, hm.2⟩

/-- A transition that is neither an announce of peer `P` to `H` nor a sweep of
`H` for which the record of `P` is stale keeps the record of `P` in `H`. -/
theorem step_keeps (st st1 : State) (e : Event) (H P : String) (rec : peer) (hwf : st.WF)
    (h : step st e = some st1) (hrec : mapGet (peersOf st H) P = some rec)
    (hno : ∀ ro now r, e = .announce ro now r → ¬ (r.info_hash = H ∧ r.peer_id = P))
    (hsw : ∀ ro t1, e = .sweep ro t1 H → ¬ sub64 t1 rec.LastSeen > 1800) :
    mapGet (peersOf st1 H) P = some rec := by
  cases e with
  | announce ro now r =>
    rcases step_announce ro now st r hwf with ⟨-, host, port, -, hs⟩ | ⟨-, hs⟩
    · rw [hs] at h
      rw [← Option.some.inj h]
      by_cases hH : H = r.info_hash
      · have hP : P ≠ r.peer_id := fun e => hno ro now r rfl ⟨hH.symm, e.symm⟩
        rw [hH, peersOf_announced_self now st r host hwf, mapGet_mapSet_ne _ _ _ _ hP, ← hH]
        exact hrec
      · rw [peersOf_congr _ _ _ (swarmOf_announced_ne now st r host H hwf hH)]
        exact hrec
    · rw [hs] at h
      rw [← Option.some.inj h]
      exact hrec
  | sweep ro t1 k =>
    simp only [step] at h
    by_cases hH : H = k
    · subst hH
      rw [peersOf_cleanSwarm_self ro t1 st st1 H hwf h]
      apply mapGet_filter_of_true _ _ (hwf.peers_nodup H) P rec hrec
      have := hsw ro t1 rfl
      simp only [stale, ttlSeconds]
      simpa using this
    · rw [peersOf_cleanSwarm_ne ro t1 st st1 k H hwf h hH]
      exact hrec

theorem run_keeps (st st1 : State) (es : List Event) (H P : String) (rec : peer) (hwf : st.WF)
    (h : run st es = some st1) (hrec : mapGet (peersOf st H) P = some rec)
    (hno : ∀ ro now r, Event.announce ro now r ∈ es → ¬ (r.info_hash = H ∧ r.peer_id = P))
    (hsw : ∀ ro t1, Event.sweep ro t1 H ∈ es → ¬ sub64 t1 rec.LastSeen > 1800) :
    mapGet (peersOf st1 H) P = some rec := by
  induction es generalizing st with
  | nil =>
    simp only [run] at h
    rw [← Option.some.inj h]; exact hrec
  | cons e es ih =>
    simp only [run] at h
    cases hs : step st e with
    | none => simp [hs] at h
    | some st2 =>
      simp only [hs] at h
      refine ih st2 (step_WF st st2 e hwf hs) h ?_ ?_ ?_
      · exact step_keeps st st2 e H P rec hwf hs hrec
          (fun ro now r he => hno ro now r (by rw [he]; exact List.mem_cons_self _ _))
          (fun ro t1 he => hsw ro t1 (by rw [he]; exact List.mem_cons_self _ _))
      · exact fun ro now r he => hno ro now r (List.mem_cons_of_mem _ he)
      · exact fun ro t1 he => hsw ro t1 (List.mem_cons_of_mem _ he)

/-- A transition that is not an announce of peer `P` to `H` leaves `P` absent
from `H`, or with the time of last announce it had. -/
theorem step_lastSeen (st st1 : State) (e : Event) (H P : String) (t : Int) (hwf : st.WF)
    (h : step st e = some st1)
    (hq : ∀ p, mapGet (peersOf st H) P = some p → p.LastSeen = t)
    (hno : ∀ ro now r, e = .announce ro now r → ¬ (r.info_hash = H ∧ r.peer_id = P)) :
    ∀ p, mapGet (peersOf st1 H) P = some p → p.LastSeen = t := by
  cases e with
  | announce ro now r =>
    rcases step_announce ro now st r hwf with ⟨-, host, port, -, hs⟩ | ⟨-, hs⟩
    · rw [hs] at h
      rw [← Option.some.inj h]
      by_cases hH : H = r.info_hash
      · have hP : P ≠ r.peer_id := fun e => hno ro now r rfl ⟨hH.symm, e.symm⟩
        rw [hH, peersOf_announced_self now st r host hwf, mapGet_mapSet_ne _ _ _ _ hP, ← hH]
        exact hq
      · rw [peersOf_congr _ _ _ (swarmOf_announced_ne now st r host H hwf hH)]
        exact hq
    · rw [hs] at h
      rw [← Option.some.inj h]
      exact hq
  | sweep ro t1 k =>
    simp only [step] at h
    by_cases hH : H = k
    · subst hH
      rw [peersOf_cleanSwarm_self ro t1 st st1 H hwf h]
      intro p hp
      exact hq p (mapGet_of_mapGet_filter _ _ (hwf.peers_nodup H) P p hp).1
    · rw [peersOf_cleanSwarm_ne ro t1 st st1 k H hwf h hH]
      exact hq

theorem run_lastSeen (st st1 : State) (es : List Event) (H P : String) (t : Int) (hwf : st.WF)
    (h : run st es = some st1)
    (hq : ∀ p, mapGet (peersOf st H) P = some p → p.LastSeen = t)
    (hno : ∀ ro now r, Event.announce ro now r ∈ es → ¬ (r.info_hash = H ∧ r.peer_id = P)) :
    ∀ p, mapGet (peersOf st1 H) P = some p → p.LastSeen = t := by
  induction es generalizing st with
  | nil =>
    simp only [run] at h
    rw [← Option.some.inj h]; exact hq
  | cons e es ih =>
    simp only [run] at h
    cases hs : step st e with
    | none => simp [hs] at h
    | some st2 =>
      simp only [hs] at h
      refine ih st2 (step_WF st st2 e hwf hs) h ?_ ?_
      · exact step_lastSeen st st2 e H P t hwf hs hq
          (fun ro now r he => hno ro now r (by rw [he]; exact List.mem_cons_self _ _))
      · exact fun ro now r he => hno ro now r (List.mem_cons_of_mem _ he)

/-- C6: peer P announces to a swarm at time `t` and is not announced to it
again in the transitions `es` that follow.  Then (first part) as long as every
sweep of the swarm so far ran at a time `t1` with `t1 - t <= 1800`, P is in the
swarm with last-seen time `t` and its line is in every snapshot; and (second
part) after a later announce to the swarm by another peer, once the sweep runs
at a time `t1` with `t1 - t > 1800`, P is absent from the swarm.  The
differences are those of the code. -/
theorem stale_peer_evicted (roP : RangeOrder) (t : Int) (st st1 : State) (rP : Request)
    (es : List Event) (hwf : st.WF) (hrP : wellFormed rP)
    (hno : ∀ ro now r, Event.announce ro now r ∈ es →
      ¬ (r.info_hash = rP.info_hash ∧ r.peer_id = rP.peer_id))
    (hrun : run st (Event.announce roP t rP :: es) = some st1) :
    ((∀ ro t1, Event.sweep ro t1 rP.info_hash ∈ es → ¬ sub64 t1 t > 1800) →
      ∃ rec, mapGet (peersOf st1 rP.info_hash) rP.peer_id = some rec ∧ rec.LastSeen = t ∧
        ∀ ro, JoinHostPort rec.IP rec.Port ∈ snapshotMembers ro ⟨peersOf st1 rP.info_hash⟩) ∧
    (∀ roQ nowQ rQ roS t1, wellFormed rQ → rQ.info_hash = rP.info_hash →
      rQ.peer_id ≠ rP.peer_id → sub64 t1 t > 1800 →
      ∃ st2, run st1 [Event.announce roQ nowQ rQ, Event.sweep roS t1 rP.info_hash] = some st2 ∧
        rP.peer_id ∉ mapKeys (peersOf st2 rP.info_hash)) := by
  obtain ⟨host, port, -, hv⟩ := validate_of_wellFormed rP hrP
  have hstep : step st (.announce roP t rP) = some (announced t st rP host) := by
    simp [step, announceHandler_of_validate roP t st rP host hwf hv]
  simp only [run, hstep] at hrun
  have hwf0 := WF_announced t st rP host hwf
  have hrec0 : mapGet (peersOf (announced t st rP host) rP.info_hash) rP.peer_id =
      some ⟨rP.peer_id, host, rP.port, t⟩ := by
    rw [peersOf_announced_self t st rP host hwf]
    exact mapGet_mapSet_self _ _ _
  have hwf1 := run_WF _ st1 es hwf0 hrun
  constructor
  · intro hsw
    have hk := run_keeps _ st1 es rP.info_hash rP.peer_id _ hwf0 hrun hrec0 hno hsw
    refine ⟨_, hk, rfl, fun ro => ?_⟩
    exact List.mem_map.mpr ⟨(rP.peer_id, ⟨rP.peer_id, host, rP.port, t⟩),
      (ro.perm _).mem_iff.mpr (mapGet_mem _ _ _ hk), rfl⟩
  · intro roQ nowQ rQ roS t1 hrQ hH hPQ hst
    have hq1 := run_lastSeen _ st1 es rP.info_hash rP.peer_id t hwf0 hrun
      (by intro p hp; rw [hrec0] at hp; rw [← Option.some.inj hp]) hno
    obtain ⟨hostQ, portQ, -, hvQ⟩ := validate_of_wellFormed rQ hrQ
    have hstepQ : step st1 (.announce roQ nowQ rQ) = some (announced nowQ st1 rQ hostQ) := by
      simp [step, announceHandler_of_validate roQ nowQ st1 rQ hostQ hwf1 hvQ]
    have hwf2 := WF_announced nowQ st1 rQ hostQ hwf1
    have hq2 := step_lastSeen st1 _ (.announce roQ nowQ rQ) rP.info_hash rP.peer_id t hwf1
      hstepQ hq1 (by
        intro ro now r he hr
        injection he with _ _ h3
        rw [← h3] at hr
        exact hPQ hr.2)
    have hbound : mapGet (announced nowQ st1 rQ hostQ).swarms rP.info_hash =
        some (getOrCreateSwarm st1 rQ.info_hash).1 := by
      rw [← hH]; exact getOrCreateSwarm_get st1 rQ.info_hash
    have hclean := cleanSwarm_of_bound roS t1 _ rP.info_hash _ hwf2 hbound
    have hrun2 : run st1 [Event.announce roQ nowQ rQ, Event.sweep roS t1 rP.info_hash] =
        cleanSwarm roS t1 (announced nowQ st1 rQ hostQ) rP.info_hash := by
      rw [run, hstepQ]
      simp only [run, step]
      cases cleanSwarm roS t1 (announced nowQ st1 rQ hostQ) rP.info_hash <;> rfl
    refine ⟨_, hrun2.trans hclean, ?_⟩
    rw [peersOf_cleanSwarm_self roS t1 _ _ rP.info_hash hwf2 hclean]
    intro hmem
    obtain ⟨x, hx, hxk⟩ := List.mem_map.mp hmem
    have hxm := List.mem_filter.mp hx
    have hg := mapGet_of_mem_nodup _ x.1 x.2 (hwf2.peers_nodup rP.info_hash) hxm.1
    rw [hxk] at hg
    have hls := hq2 x.2 hg
    have hstale : stale t1 ttlSeconds x.2 = true := by
      simp only [stale, ttlSeconds, hls]
      simpa using hst
    rw [hstale] at hxm
    exact absurd hxm.2 (by simp)

/-- P1 announces ABC at time 100; the sweep it starts runs at time 101, P2
announces ABC at time 1000 and its sweep runs at time 1900 = 100 + 1800: P1 is
still a member.  P3 announces at time 1901 and its sweep runs then: P1 is
gone. -/
theorem stale_peer_evicted_witness :
    run State.init
      [.announce RangeOrder.stored 100 ⟨"ABC", "P1", "6881", "", "1.2.3.4:5000"⟩,
        .sweep RangeOrder.stored 101 "ABC",
        .announce RangeOrder.stored 1000 ⟨"ABC", "P2", "6882", "", "5.6.7.8:4000"⟩,
        .sweep RangeOrder.stored 1900 "ABC"] =
      some ⟨[⟨[("P1", ⟨"P1", "1.2.3.4", "6881", 100⟩), ("P2", ⟨"P2", "5.6.7.8", "6882", 1000⟩)]⟩],
        [("ABC", 0)]⟩ ∧
    run ⟨[⟨[("P1", ⟨"P1", "1.2.3.4", "6881", 100⟩), ("P2", ⟨"P2", "5.6.7.8", "6882", 1000⟩)]⟩],
        [("ABC", 0)]⟩
      [.announce RangeOrder.stored 1901 ⟨"ABC", "P3", "6883", "", "9.9.9.9:3000"⟩,
        .sweep RangeOrder.stored 1901 "ABC"] =
      some ⟨[⟨[("P2", ⟨"P2", "5.6.7.8", "6882", 1000⟩), ("P3", ⟨"P3", "9.9.9.9", "6883", 1901⟩)]⟩],
        [("ABC", 0)]⟩ ∧
    (((∀ ro t1, Event.sweep ro t1 "ABC" ∈
        [Event.sweep RangeOrder.stored 101 "ABC",
          .announce RangeOrder.stored 1000 ⟨"ABC", "P2", "6882", "", "5.6.7.8:4000"⟩,
          .sweep RangeOrder.stored 1900 "ABC"] → ¬ sub64 t1 100 > 1800) →
      ∃ rec, mapGet (peersOf (State.mk [⟨[("P1", ⟨"P1", "1.2.3.4", "6881", 100⟩),
          ("P2", ⟨"P2", "5.6.7.8", "6882", 1000⟩)]⟩] [("ABC", 0)]) "ABC") "P1" = some rec ∧
        rec.LastSeen = 100 ∧
        ∀ ro, JoinHostPort rec.IP rec.Port ∈ snapshotMembers ro
          ⟨peersOf (State.mk [⟨[("P1", ⟨"P1", "1.2.3.4", "6881", 100⟩),
            ("P2", ⟨"P2", "5.6.7.8", "6882", 1000⟩)]⟩] [("ABC", 0)]) "ABC"⟩) ∧
    (∀ roQ nowQ rQ roS t1, wellFormed rQ → rQ.info_hash = "ABC" →
      rQ.peer_id ≠ "P1" → sub64 t1 100 > 1800 →
      ∃ st2, run (State.mk [⟨[("P1", ⟨"P1", "1.2.3.4", "6881", 100⟩),
          ("P2", ⟨"P2", "5.6.7.8", "6882", 1000⟩)]⟩] [("ABC", 0)])
          [Event.announce roQ nowQ rQ, Event.sweep roS t1 "ABC"] = some st2 ∧
        "P1" ∉ mapKeys (peersOf st2 "ABC"))) :=
  ⟨by decide, by decide,
    stale_peer_evicted RangeOrder.stored 100 State.init
      ⟨[⟨[("P1", ⟨"P1", "1.2.3.4", "6881", 100⟩), ("P2", ⟨"P2", "5.6.7.8", "6882", 1000⟩)]⟩],
        [("ABC", 0)]⟩
      ⟨"ABC", "P1", "6881", "", "1.2.3.4:5000"⟩
      [.sweep RangeOrder.stored 101 "ABC",
        .announce RangeOrder.stored 1000 ⟨"ABC", "P2", "6882", "", "5.6.7.8:4000"⟩,
        .sweep RangeOrder.stored 1900 "ABC"]
      (by decide) (by decide)
      (by
        intro ro now r hmem
        simp only [List.mem_cons, List.mem_singleton, List.not_mem_nil, or_false] at hmem
        rcases hmem with h | h | h
        · exact absurd h (by simp)
        · injection h with _ _ h3
          rw [h3]; decide
        · exact absurd h (by simp))
      (by decide)⟩

/-! ## C11: two first announces served at the same time -/

/-- Served without another request in between, the steps of a request are the
handler. -/
theorem taskRun_eq_announceHandler (ro : RangeOrder) (now : Int) (st : State) (r : Request) :
    taskRun ro now st (.start r) 4 =
      (announceHandler ro now st r).map (fun out => (out.st, Task.replied out.resp)) := by
  unfold announceHandler
  cases hv : validate r with
  | error resp => simp [taskRun, taskStep, hv]
  | ok host =>
    cases hg : mapGet st.swarms r.info_hash with
    | some a =>
      simp only [taskRun, taskStep, hv, hg, getOrCreateSwarm]
      cases hu : upsertPeer st a ⟨r.peer_id, host, r.port, now⟩ with
      | none => simp
      | some st2 =>
        simp only
        cases hh : st2.heap.get? a with
        | none => simp
        | some sw => simp
    | none =>
      simp only [taskRun, taskStep, hv, hg, getOrCreateSwarm]
      cases hu : upsertPeer ⟨st.heap ++ [⟨[]⟩], mapSet st.swarms r.info_hash st.heap.length⟩
          st.heap.length ⟨r.peer_id, host, r.port, now⟩ with
      | none => simp
      | some st2 =>
        simp only
        cases hh : st2.heap.get? st.heap.length with
        | none => simp
        | some sw => simp

/-- C11 at the failing input: P1 and P2 send their first announce for the
never-seen identifier ABC at the same time, and the two requests take turns at
each access to shared memory.  Both find no swarm at line 83, both allocate one
and publish it at line 86, the second assignment replacing the first; each then
writes its record into its own swarm.  Both get status 200, two swarm objects
were allocated, ABC is bound to the second one, and the swarm of ABC holds P2
only: the write of P1 is lost.  Served one after the other, the same two
requests leave one swarm that holds both peers. -/
theorem concurrent_first_announces_lose_peer :
    schedRun RangeOrder.stored 0
        ⟨State.init, [.start ⟨"ABC", "P1", "6881", "", "1.2.3.4:5000"⟩,
          .start ⟨"ABC", "P2", "6882", "", "5.6.7.8:4000"⟩]⟩ [0, 1, 0, 1, 0, 1, 0, 1] =
      some ⟨⟨[⟨[("P1", ⟨"P1", "1.2.3.4", "6881", 0⟩)]⟩, ⟨[("P2", ⟨"P2", "5.6.7.8", "6882", 0⟩)]⟩],
          [("ABC", 1)]⟩,
        [.replied ⟨200, "text/plain", "1.2.3.4:6881\n"⟩,
          .replied ⟨200, "text/plain", "5.6.7.8:6882\n"⟩]⟩ ∧
    peersOf ⟨[⟨[("P1", ⟨"P1", "1.2.3.4", "6881", 0⟩)]⟩, ⟨[("P2", ⟨"P2", "5.6.7.8", "6882", 0⟩)]⟩],
        [("ABC", 1)]⟩ "ABC" = [("P2", ⟨"P2", "5.6.7.8", "6882", 0⟩)] ∧
    snapshotMembers RangeOrder.stored
        ⟨peersOf ⟨[⟨[("P1", ⟨"P1", "1.2.3.4", "6881", 0⟩)]⟩,
          ⟨[("P2", ⟨"P2", "5.6.7.8", "6882", 0⟩)]⟩], [("ABC", 1)]⟩ "ABC"⟩ = ["5.6.7.8:6882"] ∧
    schedRun RangeOrder.stored 0
        ⟨State.init, [.start ⟨"ABC", "P1", "6881", "", "1.2.3.4:5000"⟩,
          .start ⟨"ABC", "P2", "6882", "", "5.6.7.8:4000"⟩]⟩ [0, 0, 0, 0, 1, 1, 1, 1] =
      some ⟨⟨[⟨[("P1", ⟨"P1", "1.2.3.4", "6881", 0⟩), ("P2", ⟨"P2", "5.6.7.8", "6882", 0⟩)]⟩],
          [("ABC", 0)]⟩,
        [.replied ⟨200, "text/plain", "1.2.3.4:6881\n"⟩,
          .replied ⟨200, "text/plain", "1.2.3.4:6881\n5.6.7.8:6882\n"⟩]⟩ := by
  refine ⟨by decide, by decide, by decide, by decide⟩

/-! ## C12: the upsert writes one record and touches nothing else -/

theorem mem_mapKeys_iff {V : Type} (m : GoMap V) (k : String) :
    k ∈ mapKeys m ↔ ∃ v, mapGet m k = some v := by
  constructor
  · intro h
    cases hg : mapGet m k with
    | none => exact absurd h ((mapGet_eq_none_iff m k).mp hg)
    | some v => exact ⟨v, rfl⟩
  · rintro ⟨v, hv⟩
    by_contra hc
    rw [(mapGet_eq_none_iff m k).mpr hc] at hv
    exact absurd hv (by simp)

theorem mem_mapKeys_mapSet {V : Type} (m : GoMap V) (k id : String) (v : V)
    (h : id ∈ mapKeys m) : id ∈ mapKeys (mapSet m k v) := by
  by_cases hk : id = k
  · rw [hk]
    exact (mem_mapKeys_iff _ _).mpr ⟨v, mapGet_mapSet_self m k v⟩
  · obtain ⟨w, hw⟩ := (mem_mapKeys_iff _ _).mp h
    exact (mem_mapKeys_iff _ _).mpr ⟨w, by rw [mapGet_mapSet_ne m k id v hk]; exact hw⟩

/-- C12: a successful announce from peer P writes the record of P wholesale:
afterwards the record under P is exactly the new identifier, resolved IP, port
and current time; the record of every other peer identifier in that swarm is
the record it was; every other swarm is as it was; and no peer identifier that
was in a swarm is missing from it after the announce (records are removed by
the sweep only). -/
theorem announce_writes_one_record (ro : RangeOrder) (now : Int) (st : State) (r : Request)
    (hwf : st.WF) (hr : wellFormed r) :
    ∃ out host port, SplitHostPort (effectiveAddr r) = .ok (host, port) ∧
      announceHandler ro now st r = some out ∧
      mapGet (peersOf out.st r.info_hash) r.peer_id = some ⟨r.peer_id, host, r.port, now⟩ ∧
      (∀ id, id ≠ r.peer_id →
        mapGet (peersOf out.st r.info_hash) id = mapGet (peersOf st r.info_hash) id) ∧
      (∀ k, k ≠ r.info_hash → out.st.swarmOf k = st.swarmOf k) ∧
      (∀ k id, id ∈ mapKeys (peersOf st k) → id ∈ mapKeys (peersOf out.st k)) := by
  obtain ⟨host, port, hs, hv⟩ := validate_of_wellFormed r hr
  have hp := peersOf_announced_self now st r host hwf
  refine ⟨_, host, port, hs, announceHandler_of_validate ro now st r host hwf hv, ?_, ?_, ?_, ?_⟩
  · simp only [hp]
    exact mapGet_mapSet_self _ _ _
  · intro id hid
    simp only [hp]
    exact mapGet_mapSet_ne _ _ _ _ hid
  · intro k hk
    exact swarmOf_announced_ne now st r host k hwf hk
  · intro k id hid
    by_cases hk : k = r.info_hash
    · subst hk
      simp only [hp]
      exact mem_mapKeys_mapSet _ _ _ _ hid
    · simp only [peersOf_congr _ _ _ (swarmOf_announced_ne now st r host k hwf hk)]
      exact hid

/-- P1 announces ABC again, from another address and with another port, while
P2 is a member of ABC and P9 the member of XYZ. -/
theorem announce_writes_one_record_witness :
    ∃ out host port,
      SplitHostPort (effectiveAddr ⟨"ABC", "P1", "7000", "", "9.9.9.9:1"⟩) = .ok (host, port) ∧
      announceHandler RangeOrder.stored 50
        ⟨[⟨[("P1", ⟨"P1", "1.2.3.4", "6881", 0⟩), ("P2", ⟨"P2", "5.6.7.8", "6882", 3⟩)]⟩,
          ⟨[("P9", ⟨"P9", "9.9.9.9", "6999", 0⟩)]⟩], [("ABC", 0), ("XYZ", 1)]⟩
        ⟨"ABC", "P1", "7000", "", "9.9.9.9:1"⟩ = some out ∧
      mapGet (peersOf out.st "ABC") "P1" = some ⟨"P1", host, "7000", 50⟩ ∧
      (∀ id, id ≠ "P1" →
        mapGet (peersOf out.st "ABC") id = mapGet (peersOf (State.mk
          [⟨[("P1", ⟨"P1", "1.2.3.4", "6881", 0⟩), ("P2", ⟨"P2", "5.6.7.8", "6882", 3⟩)]⟩,
            ⟨[("P9", ⟨"P9", "9.9.9.9", "6999", 0⟩)]⟩] [("ABC", 0), ("XYZ", 1)]) "ABC") id) ∧
      (∀ k, k ≠ "ABC" → out.st.swarmOf k = (State.mk
          [⟨[("P1", ⟨"P1", "1.2.3.4", "6881", 0⟩), ("P2", ⟨"P2", "5.6.7.8", "6882", 3⟩)]⟩,
            ⟨[("P9", ⟨"P9", "9.9.9.9", "6999", 0⟩)]⟩] [("ABC", 0), ("XYZ", 1)]).swarmOf k) ∧
      (∀ k id, id ∈ mapKeys (peersOf (State.mk
          [⟨[("P1", ⟨"P1", "1.2.3.4", "6881", 0⟩), ("P2", ⟨"P2", "5.6.7.8", "6882", 3⟩)]⟩,
            ⟨[("P9", ⟨"P9", "9.9.9.9", "6999", 0⟩)]⟩] [("ABC", 0), ("XYZ", 1)]) k) →
        id ∈ mapKeys (peersOf out.st k)) :=
  announce_writes_one_record RangeOrder.stored 50
    ⟨[⟨[("P1", ⟨"P1", "1.2.3.4", "6881", 0⟩), ("P2", ⟨"P2", "5.6.7.8", "6882", 3⟩)]⟩,
      ⟨[("P9", ⟨"P9", "9.9.9.9", "6999", 0⟩)]⟩], [("ABC", 0), ("XYZ", 1)]⟩
    ⟨"ABC", "P1", "7000", "", "9.9.9.9:1"⟩ (by decide) (by decide)

/-! ## C13: the port is carried through verbatim -/

/-- C13: for every non-empty port string, an announce that is otherwise
well-formed is answered with status 200 in every state of a running process,
the record stored for the peer has exactly that string as its port, and the
caller's line of the reply is the host, or the host in square brackets when it
holds a colon, then a colon, then exactly that string. -/
theorem port_verbatim (ro : RangeOrder) (now : Int) (st : State) (r : Request) (hwf : st.WF)
    (h1 : r.info_hash ≠ "") (h2 : r.peer_id ≠ "") (h3 : r.port ≠ "")
    (h4 : splits (effectiveAddr r) = true) :
    ∃ out host hp, SplitHostPort (effectiveAddr r) = .ok (host, hp) ∧
      announceHandler ro now st r = some out ∧ out.resp.status = 200 ∧
      (∃ rec, mapGet (peersOf out.st r.info_hash) r.peer_id = some rec ∧ rec.Port = r.port) ∧
      (∃ pfx pre post, (pfx = host ∨ pfx = "[" ++ host ++ "]") ∧
        out.resp.body = renderBody (pre ++ (pfx ++ ":" ++ r.port) :: post)) := by
  obtain ⟨host, port, hs, hv⟩ := validate_of_wellFormed r ⟨h1, h2, h3, h4⟩
  have hp := peersOf_announced_self now st r host hwf
  have hmem := own_line_mem_snapshot ro (peersOf st r.info_hash) ⟨r.peer_id, host, r.port, now⟩
  obtain ⟨pre, post, hsplit⟩ := List.append_of_mem hmem
  refine ⟨_, host, port, hs, announceHandler_of_validate ro now st r host hwf hv, rfl,
    ⟨_, by simp only [hp]; exact mapGet_mapSet_self _ _ _, rfl⟩, ?_⟩
  by_cases hc : ':' ∈ host.data
  · refine ⟨"[" ++ host ++ "]", pre, post, Or.inr rfl, ?_⟩
    simp only [hsplit, JoinHostPort_eq, hc, if_true]
    simp [String.append_assoc]
  · refine ⟨host, pre, post, Or.inl rfl, ?_⟩
    simp only [hsplit, JoinHostPort_eq, hc, if_false]

/-- An announce whose port is not a number. -/
theorem port_verbatim_witness :
    ∃ out host hp,
      SplitHostPort (effectiveAddr ⟨"ABC", "P1", "no port, 99999999", "", "1.2.3.4:5000"⟩)
        = .ok (host, hp) ∧
      announceHandler RangeOrder.stored 0 State.init
        ⟨"ABC", "P1", "no port, 99999999", "", "1.2.3.4:5000"⟩ = some out ∧
      out.resp.status = 200 ∧
      (∃ rec, mapGet (peersOf out.st "ABC") "P1" = some rec ∧ rec.Port = "no port, 99999999") ∧
      (∃ pfx pre post, (pfx = host ∨ pfx = "[" ++ host ++ "]") ∧
        out.resp.body = renderBody (pre ++ (pfx ++ ":" ++ "no port, 99999999") :: post)) :=
  port_verbatim RangeOrder.stored 0 State.init
    ⟨"ABC", "P1", "no port, 99999999", "", "1.2.3.4:5000"⟩
    (by decide) (by decide) (by decide) (by decide) (by decide)

/-! ## C14: with an `ip` override the remote address plays no part -/

/-- C14: when the `ip` parameter is non-empty, two requests that agree on
info_hash, peer_id, port and ip and are served from the same state at the same
time give the same outcome (status, body, resulting state, started sweep),
whatever their remote addresses are, parsable or not. -/
theorem ip_override_ignores_remote (ro : RangeOrder) (now : Int) (st : State)
    (infoHash peerID port ip remote1 remote2 : String) (hip : ip ≠ "") :
    announceHandler ro now st ⟨infoHash, peerID, port, ip, remote1⟩ =
      announceHandler ro now st ⟨infoHash, peerID, port, ip, remote2⟩ := by
  have hv : validate ⟨infoHash, peerID, port, ip, remote1⟩ =
      validate ⟨infoHash, peerID, port, ip, remote2⟩ := by
    simp [validate, effectiveAddr, hip]
  unfold announceHandler
  rw [hv]

/-- The same announce with override `1.2.3.4:6881`, from `5.6.7.8:4000` and
from a remote address that does not parse. -/
theorem ip_override_ignores_remote_witness :
    announceHandler RangeOrder.stored 0 State.init
        ⟨"ABC", "P1", "6881", "1.2.3.4:6881", "5.6.7.8:4000"⟩ =
      announceHandler RangeOrder.stored 0 State.init
        ⟨"ABC", "P1", "6881", "1.2.3.4:6881", "no address"⟩ ∧
    splits "no address" = false ∧
    (announceHandler RangeOrder.stored 0 State.init
        ⟨"ABC", "P1", "6881", "1.2.3.4:6881", "no address"⟩).map
          (fun out => (out.resp.status, out.resp.body)) = some (200, "1.2.3.4:6881\n") :=
  ⟨ip_override_ignores_remote RangeOrder.stored 0 State.init "ABC" "P1" "6881" "1.2.3.4:6881"
      "5.6.7.8:4000" "no address" (by decide), by decide, by decide⟩

/-! ## C16: the sweep only shrinks a swarm and is idempotent -/

/-- C16: for every swarm of a running process and every time `now`, after
`cleanSwarm` every record of the swarm is a record it had, unchanged, under the
same identifier (the entries left are a sublist of the entries before), the
registry and the other swarms are as they were, and a second run of
`cleanSwarm` at the same `now`, in any range order, leaves the state as the
first run left it. -/
theorem sweep_shrinks_idempotent (ro ro2 : RangeOrder) (now : Int) (st : State) (k : String)
    (a : Nat) (hwf : st.WF) (hb : mapGet st.swarms k = some a) :
    ∃ st1, cleanSwarm ro now st k = some st1 ∧
      (peersOf st1 k).Sublist (peersOf st k) ∧
      (∀ id p, mapGet (peersOf st1 k) id = some p → mapGet (peersOf st k) id = some p) ∧
      st1.swarms = st.swarms ∧ (∀ k2, k2 ≠ k → st1.swarmOf k2 = st.swarmOf k2) ∧
      cleanSwarm ro2 now st1 k = some st1 := by
  have hc := cleanSwarm_of_bound ro now st k a hwf hb
  have hwf1 := WF_cleanSwarm ro now st _ k hwf hc
  have hp := peersOf_cleanSwarm_self ro now st _ k hwf hc
  refine ⟨_, hc, ?_, ?_, rfl, ?_, ?_⟩
  · rw [hp]; exact List.filter_sublist _
  · intro id p hg
    rw [hp] at hg
    exact (mapGet_of_mapGet_filter _ _ (hwf.peers_nodup k) id p hg).1
  · intro k2 hk2
    exact (swarmOf_cleanSwarm_ne ro now st _ k k2 hwf hc hk2).1
  · rw [cleanSwarm_of_bound ro2 now _ k a hwf1 hb, hp,
      evictStale_eq_filter ro2 now ttlSeconds _ (mapKeys_filter_nodup _ _ (hwf.peers_nodup k)),
      evictStale_eq_filter ro now ttlSeconds _ (hwf.peers_nodup k)]
    simp only [List.set_set, List.filter_filter, Bool.and_self]

/-- Two sweeps at time 2000 of a swarm whose records were last seen at 199, 200
and 1500. -/
theorem sweep_shrinks_idempotent_witness :
    ∃ st1, cleanSwarm RangeOrder.stored 2000
        ⟨[⟨[("P1", ⟨"P1", "1.2.3.4", "6881", 199⟩), ("P2", ⟨"P2", "5.6.7.8", "6882", 200⟩),
          ("P3", ⟨"P3", "9.9.9.9", "6883", 1500⟩)]⟩], [("ABC", 0)]⟩ "ABC" = some st1 ∧
      (peersOf st1 "ABC").Sublist
        (peersOf ⟨[⟨[("P1", ⟨"P1", "1.2.3.4", "6881", 199⟩), ("P2", ⟨"P2", "5.6.7.8", "6882", 200⟩),
          ("P3", ⟨"P3", "9.9.9.9", "6883", 1500⟩)]⟩], [("ABC", 0)]⟩ "ABC") ∧
      (∀ id p, mapGet (peersOf st1 "ABC") id = some p →
        mapGet (peersOf ⟨[⟨[("P1", ⟨"P1", "1.2.3.4", "6881", 199⟩),
          ("P2", ⟨"P2", "5.6.7.8", "6882", 200⟩),
          ("P3", ⟨"P3", "9.9.9.9", "6883", 1500⟩)]⟩], [("ABC", 0)]⟩ "ABC") id = some p) ∧
      st1.swarms = (State.mk [⟨[("P1", ⟨"P1", "1.2.3.4", "6881", 199⟩),
          ("P2", ⟨"P2", "5.6.7.8", "6882", 200⟩),
          ("P3", ⟨"P3", "9.9.9.9", "6883", 1500⟩)]⟩] [("ABC", 0)]).swarms ∧
      (∀ k2, k2 ≠ "ABC" → st1.swarmOf k2 = (State.mk [⟨[("P1", ⟨"P1", "1.2.3.4", "6881", 199⟩),
          ("P2", ⟨"P2", "5.6.7.8", "6882", 200⟩),
          ("P3", ⟨"P3", "9.9.9.9", "6883", 1500⟩)]⟩] [("ABC", 0)]).swarmOf k2) ∧
      cleanSwarm RangeOrder.reversed 2000 st1 "ABC" = some st1 :=
  sweep_shrinks_idempotent RangeOrder.stored RangeOrder.reversed 2000
    ⟨[⟨[("P1", ⟨"P1", "1.2.3.4", "6881", 199⟩), ("P2", ⟨"P2", "5.6.7.8", "6882", 200⟩),
      ("P3", ⟨"P3", "9.9.9.9", "6883", 1500⟩)]⟩], [("ABC", 0)]⟩ "ABC" 0 (by decide) (by decide)

/-! ## C17: the keys and records of every reachable state -/

theorem mem_mapSet {V : Type} (m : GoMap V) (k : String) (v : V) (e : String × V)
    (h : e ∈ mapSet m k v) : e ∈ m ∨ e = (k, v) := by
  induction m with
  | nil =>
    simp only [mapSet, List.mem_singleton] at h
    exact Or.inr h
  | cons e1 m ih =>
    obtain ⟨k1, v1⟩ := e1
    by_cases h1 : k1 = k
    · simp only [mapSet, h1, if_true, List.mem_cons] at h
      rcases h with h | h
      · exact Or.inr h
      · exact Or.inl (List.mem_cons_of_mem _ h)
    · simp only [mapSet, h1, if_false, List.mem_cons] at h
      rcases h with h | h
      · exact Or.inl (by rw [h]; exact List.mem_cons_self _ _)
      · rcases ih h with h2 | h2
        · exact Or.inl (List.mem_cons_of_mem _ h2)
        · exact Or.inr h2

theorem State.Tidy.peersOf {st : State} (ht : st.Tidy) (k : String) :
    ∀ x ∈ Retracker.peersOf st k, x.1 ≠ "" ∧ x.2.ID = x.1 ∧ x.2.Port ≠ "" := by
  unfold Retracker.peersOf State.swarmOf
  cases hg : mapGet st.swarms k with
  | none => simp
  | some a =>
    simp only
    cases hh : st.heap.get? a with
    | none => simp
    | some sw => exact ht.2 sw (List.get?_mem hh)

theorem Tidy_getOrCreateSwarm (st : State) (k : String) (ht : st.Tidy) (hk : k ≠ "") :
    (getOrCreateSwarm st k).2.Tidy := by
  unfold getOrCreateSwarm
  cases hg : mapGet st.swarms k with
  | some a => exact ht
  | none =>
    refine ⟨?_, ?_⟩
    · intro e he
      rcases mem_mapSet _ _ _ _ he with h | h
      · exact ht.1 e h
      · rw [h]; exact hk
    · intro sw hsw
      simp only [List.mem_append, List.mem_singleton] at hsw
      rcases hsw with h | h
      · exact ht.2 sw h
      · rw [h]; simp

theorem Tidy_announced (now : Int) (st : State) (r : Request) (host : String) (ht : st.Tidy)
    (hr : wellFormed r) : (announced now st r host).Tidy := by
  have hg := Tidy_getOrCreateSwarm st r.info_hash ht hr.1
  refine ⟨hg.1, ?_⟩
  intro sw hsw
  rcases List.mem_or_eq_of_mem_set hsw with h | h
  · exact hg.2 sw h
  · rw [h]
    intro x hx
    rcases mem_mapSet _ _ _ _ hx with h2 | h2
    · exact ht.peersOf r.info_hash x h2
    · rw [h2]
      exact ⟨hr.2.1, rfl, hr.2.2.1⟩

theorem Tidy_cleanSwarm (ro : RangeOrder) (now : Int) (st st1 : State) (k : String)
    (hwf : st.WF) (ht : st.Tidy) (hc : cleanSwarm ro now st k = some st1) : st1.Tidy := by
  cases hb : mapGet st.swarms k with
  | none => simp [cleanSwarm, hb] at hc
  | some a =>
    rw [cleanSwarm_of_bound ro now st k a hwf hb] at hc
    rw [← Option.some.inj hc]
    refine ⟨ht.1, ?_⟩
    intro sw hsw
    rcases List.mem_or_eq_of_mem_set hsw with h | h
    · exact ht.2 sw h
    · rw [h, evictStale_eq_filter ro now ttlSeconds _ (hwf.peers_nodup k)]
      intro x hx
      exact ht.peersOf k x (List.mem_filter.mp hx).1

theorem step_Tidy (st st1 : State) (e : Event) (hwf : st.WF) (ht : st.Tidy)
    (h : step st e = some st1) : st1.Tidy := by
  cases e with
  | announce ro now r =>
    rcases step_announce ro now st r hwf with ⟨hr, host, port, -, hs⟩ | ⟨-, hs⟩
    · rw [hs] at h
      rw [← Option.some.inj h]
      exact Tidy_announced now st r host ht hr
    · rw [hs] at h
      rw [← Option.some.inj h]
      exact ht
  | sweep ro now k => exact Tidy_cleanSwarm ro now st st1 k hwf ht h

theorem run_Tidy (st st1 : State) (es : List Event) (hwf : st.WF) (ht : st.Tidy)
    (h : run st es = some st1) : st1.Tidy := by
  induction es generalizing st with
  | nil =>
    simp only [run] at h
    rw [← Option.some.inj h]; exact ht
  | cons e es ih =>
    simp only [run] at h
    cases hs : step st e with
    | none => simp [hs] at h
    | some st2 =>
      simp only [hs] at h
      exact ih st2 (step_WF st st2 e hwf hs) (step_Tidy st st2 e hwf ht hs) h

/-- C17: starting from the empty registry, after any sequence of announces and
sweeps, every entry of the registry has a non-empty info_hash as key and is
bound to an allocated swarm object, and every entry of the map of that swarm
has a non-empty peer identifier as key and a record whose `ID` is that key and
whose port is not empty; the same holds of the entries of every allocated
swarm object. -/
theorem reachable_state_invariant (es : List Event) (st : State)
    (h : run State.init es = some st) :
    (∀ e ∈ st.swarms, e.1 ≠ "" ∧ ∃ sw, st.heap.get? e.2 = some sw ∧
      ∀ x ∈ sw.Peers, x.1 ≠ "" ∧ x.2.ID = x.1 ∧ x.2.Port ≠ "") ∧
    (∀ sw ∈ st.heap, ∀ x ∈ sw.Peers, x.1 ≠ "" ∧ x.2.ID = x.1 ∧ x.2.Port ≠ "") := by
  have hwf : st.WF := run_WF State.init st es (by decide) h
  have ht : st.Tidy := run_Tidy State.init st es (by decide) (by decide) h
  refine ⟨?_, ht.2⟩
  intro e he
  have hlt := hwf.2.2.1 e he
  exact ⟨ht.1 e he, st.heap.get ⟨e.2, hlt⟩, List.get?_eq_get hlt,
    ht.2 _ (List.get_mem _ _ _)⟩

/-- P1 announces ABC, P2 announces XYZ, P3 announces ABC, and a sweep of ABC
removes P1. -/
theorem reachable_state_invariant_witness :
    (∀ e ∈ (State.mk [⟨[("P3", ⟨"P3", "9.9.9.9", "6883", 1900⟩)]⟩,
        ⟨[("P2", ⟨"P2", "5.6.7.8", "6882", 5⟩)]⟩] [("ABC", 0), ("XYZ", 1)]).swarms,
      e.1 ≠ "" ∧ ∃ sw, (State.mk [⟨[("P3", ⟨"P3", "9.9.9.9", "6883", 1900⟩)]⟩,
        ⟨[("P2", ⟨"P2", "5.6.7.8", "6882", 5⟩)]⟩] [("ABC", 0), ("XYZ", 1)]).heap.get? e.2 = some sw ∧
      ∀ x ∈ sw.Peers, x.1 ≠ "" ∧ x.2.ID = x.1 ∧ x.2.Port ≠ "") ∧
    (∀ sw ∈ (State.mk [⟨[("P3", ⟨"P3", "9.9.9.9", "6883", 1900⟩)]⟩,
        ⟨[("P2", ⟨"P2", "5.6.7.8", "6882", 5⟩)]⟩] [("ABC", 0), ("XYZ", 1)]).heap,
      ∀ x ∈ sw.Peers, x.1 ≠ "" ∧ x.2.ID = x.1 ∧ x.2.Port ≠ "") :=
  reachable_state_invariant
    [.announce RangeOrder.stored 0 ⟨"ABC", "P1", "6881", "", "1.2.3.4:5000"⟩,
      .announce RangeOrder.stored 5 ⟨"XYZ", "P2", "6882", "", "5.6.7.8:4000"⟩,
      .announce RangeOrder.stored 1900 ⟨"ABC", "P3", "6883", "", "9.9.9.9:3000"⟩,
      .sweep RangeOrder.stored 1901 "ABC"]
    ⟨[⟨[("P3", ⟨"P3", "9.9.9.9", "6883", 1900⟩)]⟩, ⟨[("P2", ⟨"P2", "5.6.7.8", "6882", 5⟩)]⟩],
      [("ABC", 0), ("XYZ", 1)]⟩
    (by decide)

/-! ## The handler with goroutines in between: lemmas -/

theorem upsertPeer_getOrCreateSwarm (now : Int) (st : State) (r : Request) (host : String)
    (hwf : st.WF) :
    upsertPeer (getOrCreateSwarm st r.info_hash).2 (getOrCreateSwarm st r.info_hash).1
      ⟨r.peer_id, host, r.port, now⟩ = some (announced now st r host) := by
  unfold announced
  cases hg : mapGet st.swarms r.info_hash with
  | some a =>
    obtain ⟨sw, hsw, hof⟩ := hwf.swarmOf_of_get hg
    simp only [getOrCreateSwarm, hg, upsertPeer, hsw, peersOf, hof]
  | none =>
    simp [getOrCreateSwarm, hg, upsertPeer, peersOf, State.swarmOf]

/-- With nothing in between, the handler is `announceHandler`. -/
theorem announceHandlerWith_nil (ro : RangeOrder) (now : Int) (st : State) (r : Request) :
    announceHandlerWith ro now [] st r =
      (announceHandler ro now st r).map (fun out => (out.resp, out.st)) := by
  unfold announceHandlerWith announceHandler
  cases hv : validate r with
  | error resp => simp
  | ok host =>
    simp only
    cases hu : upsertPeer (getOrCreateSwarm st r.info_hash).2 (getOrCreateSwarm st r.info_hash).1
        ⟨r.peer_id, host, r.port, now⟩ with
    | none => simp
    | some st2 =>
      simp only [run]
      cases hh : st2.heap.get? (getOrCreateSwarm st r.info_hash).1 with
      | none => simp
      | some sw => simp

/-- The reply of a well-formed announce is written from the swarm as the
transitions in between leave it. -/
theorem announceHandlerWith_of_run (ro : RangeOrder) (now : Int) (between : List Event)
    (st st3 : State) (r : Request) (host : String) (hwf : st.WF) (hv : validate r = .ok host)
    (hrun : run (announced now st r host) between = some st3) :
    announceHandlerWith ro now between st r =
      some (⟨200, "text/plain", renderBody (snapshotMembers ro ⟨peersOf st3 r.info_hash⟩)⟩, st3) := by
  have hwf1 := WF_announced now st r host hwf
  have hwf3 := run_WF _ st3 between hwf1 hrun
  have hb : mapGet st3.swarms r.info_hash = some (getOrCreateSwarm st r.info_hash).1 :=
    run_mono _ st3 between r.info_hash _ hwf1 hrun (getOrCreateSwarm_get st r.info_hash)
  obtain ⟨sw, hsw, hof⟩ := hwf3.swarmOf_of_get hb
  unfold announceHandlerWith
  simp only [hv, upsertPeer_getOrCreateSwarm now st r host hwf, hrun, hsw, peersOf, hof, StatusOK]

theorem sum_linesOfMember_sublist (l1 l2 : GoMap peer) (h : l1.Sublist l2) :
    (l1.map linesOfMember).sum ≤ (l2.map linesOfMember).sum := by
  induction h with
  | slnil => simp
  | cons a _ ih =>
    simp only [List.map_cons, List.sum_cons]
    omega
  | cons₂ a _ ih =>
    simp only [List.map_cons, List.sum_cons]
    omega

/-- The sweep of a bound content identifier, as a run of one transition. -/
theorem run_sweep (roS : RangeOrder) (nowS : Int) (st : State) (k : String) (a : Nat)
    (hwf : st.WF) (hb : mapGet st.swarms k = some a) :
    ∃ st3, run st [Event.sweep roS nowS k] = some st3 ∧
      peersOf st3 k = (peersOf st k).filter (fun e => !(decide (sub64 nowS e.2.LastSeen > 1800))) := by
  have hc := cleanSwarm_of_bound roS nowS st k a hwf hb
  refine ⟨⟨st.heap.set a ⟨evictStale roS nowS ttlSeconds (peersOf st k)⟩, st.swarms⟩, ?_, ?_⟩
  · simp only [run, step, hc]
  · exact peersOf_cleanSwarm_self roS nowS st _ k hwf hc

/-- What runs between line 92 and line 97 of a request that no other request
overlaps leaves a sublist of the swarm. -/
theorem run_ownSweep (early : Option (RangeOrder × Int)) (st : State) (k : String) (a : Nat)
    (hwf : st.WF) (hb : mapGet st.swarms k = some a) :
    ∃ st3, run st (ownSweep early k) = some st3 ∧
      (peersOf st3 k).Sublist (peersOf st k) ∧ (early = none → st3 = st) ∧
      (∀ roS nowS, early = some (roS, nowS) → peersOf st3 k =
        (peersOf st k).filter (fun e => !(decide (sub64 nowS e.2.LastSeen > 1800)))) := by
  cases early with
  | none =>
    exact ⟨st, rfl, List.Sublist.refl _, fun _ => rfl, fun _ _ h => absurd h (by simp)⟩
  | some p =>
    obtain ⟨roS, nowS⟩ := p
    obtain ⟨st3, hrun, hp⟩ := run_sweep roS nowS st k a hwf hb
    refine ⟨st3, hrun, ?_, fun h => absurd h (by simp), ?_⟩
    · rw [hp]; exact List.filter_sublist _
    · intro roS2 nowS2 h
      simp only [Option.some.injEq, Prod.mk.injEq] at h
      rw [← h.2]
      exact hp

/-! ## C4, amended: a repeated announce overwrites the entry of the peer -/

/-- C4, amended: for every swarm that already holds a record for peer_id P, a
further well-formed announce from P to the same info_hash, with any ip and
port, leaves the swarm's list of peer identifiers and its membership count
unchanged: the upsert overwrites the entry of P by the new record and does not
duplicate it.  The reply of the request, which no other request overlaps, is
written from the swarm at the snapshot, one line per entry and each identifier
once: that swarm is the one the upsert left when the snapshot comes before the
sweep started at line 95, and the entries of it that this sweep does not find
stale when the sweep takes the lock first; so the reply has as many entries as
the swarm had members in the first case and no more in the second, and when the
resolved IP and the port hold no newline it has no more newline-terminated
lines than a snapshot of the swarm before the announce. -/
theorem reannounce_overwrites (ro ro0 : RangeOrder) (now : Int)
    (early : Option (RangeOrder × Int)) (st : State) (r : Request)
    (hwf : st.WF) (hr : wellFormed r) (hP : r.peer_id ∈ mapKeys (peersOf st r.info_hash)) :
    ∃ out host port,
      SplitHostPort (effectiveAddr r) = .ok (host, port) ∧
      announceHandler ro now st r = some out ∧
      mapKeys (peersOf out.st r.info_hash) = mapKeys (peersOf st r.info_hash) ∧
      (peersOf out.st r.info_hash).length = (peersOf st r.info_hash).length ∧
      mapGet (peersOf out.st r.info_hash) r.peer_id = some ⟨r.peer_id, host, r.port, now⟩ ∧
      ∃ resp st3,
        announceHandlerWith ro now (ownSweep early r.info_hash) st r = some (resp, st3) ∧
        resp.status = 200 ∧
        resp.body = renderBody (snapshotMembers ro ⟨peersOf st3 r.info_hash⟩) ∧
        (snapshotMembers ro ⟨peersOf st3 r.info_hash⟩).Perm
          ((peersOf st3 r.info_hash).map (fun e => JoinHostPort e.2.IP e.2.Port)) ∧
        (mapKeys (peersOf st3 r.info_hash)).Nodup ∧
        (peersOf st3 r.info_hash).Sublist (peersOf out.st r.info_hash) ∧
        (early = none → resp = out.resp ∧ st3 = out.st) ∧
        (∀ roS nowS, early = some (roS, nowS) → peersOf st3 r.info_hash =
          (peersOf out.st r.info_hash).filter
            (fun e => !(decide (sub64 nowS e.2.LastSeen > 1800)))) ∧
        (snapshotMembers ro ⟨peersOf st3 r.info_hash⟩).length ≤ (peersOf st r.info_hash).length ∧
        (early = none →
          (snapshotMembers ro ⟨peersOf st3 r.info_hash⟩).length = (peersOf st r.info_hash).length) ∧
        (noNewline host → noNewline r.port →
          (bodyLines resp.body).length ≤
            (bodyLines (renderBody (snapshotMembers ro0 ⟨peersOf st r.info_hash⟩))).length) := by
  obtain ⟨host, port, hs, hv⟩ := validate_of_wellFormed r hr
  have hp := peersOf_announced_self now st r host hwf
  have hwf1 := WF_announced now st r host hwf
  have hb : mapGet (announced now st r host).swarms r.info_hash =
      some (getOrCreateSwarm st r.info_hash).1 := getOrCreateSwarm_get st r.info_hash
  obtain ⟨st3, hrun, hsub, hnone, hsome⟩ :=
    run_ownSweep early (announced now st r host) r.info_hash _ hwf1 hb
  have hwf3 := run_WF _ st3 _ hwf1 hrun
  have hlen : (peersOf (announced now st r host) r.info_hash).length =
      (peersOf st r.info_hash).length := by
    rw [hp]; exact length_mapSet_of_mem _ _ _ hP
  have hsnap : (snapshotMembers ro ⟨peersOf st3 r.info_hash⟩).length =
      (peersOf st3 r.info_hash).length := by
    rw [(snapshotMembers_perm ro _).length_eq, List.length_map]
  refine ⟨_, host, port, hs, announceHandler_of_validate ro now st r host hwf hv, ?_, hlen, ?_,
    _, st3, announceHandlerWith_of_run ro now _ st st3 r host hwf hv hrun, rfl, rfl,
    snapshotMembers_perm ro _, hwf3.peers_nodup r.info_hash, hsub, ?_, hsome, ?_, ?_, ?_⟩
  · simp only [hp]
    exact mapKeys_mapSet_of_mem _ _ _ hP
  · simp only [hp]
    exact mapGet_mapSet_self _ _ _
  · intro he
    have h3 := hnone he
    subst h3
    exact ⟨by simp only [hp], rfl⟩
  · rw [hsnap, ← hlen]
    exact hsub.length_le
  · intro he
    rw [hsnap, hnone he, hlen]
  · intro h1 h2
    simp only [length_bodyLines_snapshot]
    refine le_trans (sum_linesOfMember_sublist _ _ hsub) ?_
    rw [hp]
    exact sum_linesOfMember_mapSet_le _ _ _ hP (linesOfMember_of_noNewline _ _ h1 h2)

/-- P2, a member of ABC beside P1, announces ABC again at time 5000 from another
address and with another port, and the sweep started at line 95 takes the lock
before the snapshot: the swarm has two members after the upsert, P1 was last
seen at time 0, and the reply is written from the one entry of P2. -/
theorem reannounce_overwrites_witness :
    announceHandlerWith RangeOrder.stored 5000 (ownSweep (some (RangeOrder.stored, 5000)) "ABC")
        ⟨[⟨[("P1", ⟨"P1", "1.2.3.4", "6881", 0⟩), ("P2", ⟨"P2", "5.6.7.8", "6882", 4000⟩)]⟩],
          [("ABC", 0)]⟩
        ⟨"ABC", "P2", "7000", "9.9.9.9:1", "5.6.7.8:4000"⟩ =
      some (⟨200, "text/plain", "9.9.9.9:7000\n"⟩,
        ⟨[⟨[("P2", ⟨"P2", "9.9.9.9", "7000", 5000⟩)]⟩], [("ABC", 0)]⟩) ∧
    ∃ out host port,
      SplitHostPort (effectiveAddr ⟨"ABC", "P2", "7000", "9.9.9.9:1", "5.6.7.8:4000"⟩)
        = .ok (host, port) ∧
      announceHandler RangeOrder.stored 5000
          ⟨[⟨[("P1", ⟨"P1", "1.2.3.4", "6881", 0⟩), ("P2", ⟨"P2", "5.6.7.8", "6882", 4000⟩)]⟩],
            [("ABC", 0)]⟩
          ⟨"ABC", "P2", "7000", "9.9.9.9:1", "5.6.7.8:4000"⟩ = some out ∧
      mapKeys (peersOf out.st "ABC") = mapKeys (peersOf (State.mk
        [⟨[("P1", ⟨"P1", "1.2.3.4", "6881", 0⟩), ("P2", ⟨"P2", "5.6.7.8", "6882", 4000⟩)]⟩]
          [("ABC", 0)]) "ABC") ∧
      (peersOf out.st "ABC").length = (peersOf (State.mk
        [⟨[("P1", ⟨"P1", "1.2.3.4", "6881", 0⟩), ("P2", ⟨"P2", "5.6.7.8", "6882", 4000⟩)]⟩]
          [("ABC", 0)]) "ABC").length ∧
      mapGet (peersOf out.st "ABC") "P2" = some ⟨"P2", host, "7000", 5000⟩ ∧
      ∃ resp st3,
        announceHandlerWith RangeOrder.stored 5000
          (ownSweep (some (RangeOrder.stored, 5000)) "ABC")
          ⟨[⟨[("P1", ⟨"P1", "1.2.3.4", "6881", 0⟩), ("P2", ⟨"P2", "5.6.7.8", "6882", 4000⟩)]⟩],
            [("ABC", 0)]⟩
          ⟨"ABC", "P2", "7000", "9.9.9.9:1", "5.6.7.8:4000"⟩ = some (resp, st3) ∧
        resp.status = 200 ∧
        resp.body = renderBody (snapshotMembers RangeOrder.stored ⟨peersOf st3 "ABC"⟩) ∧
        (snapshotMembers RangeOrder.stored ⟨peersOf st3 "ABC"⟩).Perm
          ((peersOf st3 "ABC").map (fun e => JoinHostPort e.2.IP e.2.Port)) ∧
        (mapKeys (peersOf st3 "ABC")).Nodup ∧
        (peersOf st3 "ABC").Sublist (peersOf out.st "ABC") ∧
        (some (RangeOrder.stored, (5000 : Int)) = none → resp = out.resp ∧ st3 = out.st) ∧
        (∀ roS nowS, some (RangeOrder.stored, (5000 : Int)) = some (roS, nowS) →
          peersOf st3 "ABC" = (peersOf out.st "ABC").filter
            (fun e => !(decide (sub64 nowS e.2.LastSeen > 1800)))) ∧
        (snapshotMembers RangeOrder.stored ⟨peersOf st3 "ABC"⟩).length ≤ (peersOf (State.mk
          [⟨[("P1", ⟨"P1", "1.2.3.4", "6881", 0⟩), ("P2", ⟨"P2", "5.6.7.8", "6882", 4000⟩)]⟩]
            [("ABC", 0)]) "ABC").length ∧
        (some (RangeOrder.stored, (5000 : Int)) = none →
          (snapshotMembers RangeOrder.stored ⟨peersOf st3 "ABC"⟩).length = (peersOf (State.mk
            [⟨[("P1", ⟨"P1", "1.2.3.4", "6881", 0⟩), ("P2", ⟨"P2", "5.6.7.8", "6882", 4000⟩)]⟩]
              [("ABC", 0)]) "ABC").length) ∧
        (noNewline host → noNewline "7000" →
          (bodyLines resp.body).length ≤
            (bodyLines (renderBody (snapshotMembers RangeOrder.reversed
              ⟨peersOf (State.mk [⟨[("P1", ⟨"P1", "1.2.3.4", "6881", 0⟩),
                ("P2", ⟨"P2", "5.6.7.8", "6882", 4000⟩)]⟩] [("ABC", 0)]) "ABC"⟩))).length) :=
  ⟨by decide,
    reannounce_overwrites RangeOrder.stored RangeOrder.reversed 5000
      (some (RangeOrder.stored, 5000))
      ⟨[⟨[("P1", ⟨"P1", "1.2.3.4", "6881", 0⟩), ("P2", ⟨"P2", "5.6.7.8", "6882", 4000⟩)]⟩],
        [("ABC", 0)]⟩
      ⟨"ABC", "P2", "7000", "9.9.9.9:1", "5.6.7.8:4000"⟩ (by decide) (by decide) (by decide)⟩

/-! ## C8, amended: the body of a successful reply -/

/-- C8, amended: a well-formed announce in a state of a running process is
answered, whatever transitions of other goroutines take place between its
upsert and its snapshot, with status 200 and content type `text/plain`, and the
body is, for each member of the swarm as it stands when the snapshot of lines
97-102 is taken, in some order, `JoinHostPort(IP, Port)` (`ip:port`, or
`[ip]:port` when the IP holds a colon) followed by a newline, with nothing
else.  With nothing in between, that swarm is the swarm right after the
caller's upsert; when the sweep started at line 95 takes the lock first, it is
that swarm without the records this sweep finds stale.  When no member's IP or
port holds a newline, the newline-terminated lines of the body are the rendered
members: their number is the membership count at the snapshot and they are a
permutation of the rendered members. -/
theorem reply_body_exact (ro : RangeOrder) (now : Int) (between : List Event) (st : State)
    (r : Request) (hwf : st.WF) (hr : wellFormed r) :
    ∃ out host port, SplitHostPort (effectiveAddr r) = .ok (host, port) ∧
      announceHandler ro now st r = some out ∧
      peersOf out.st r.info_hash =
        mapSet (peersOf st r.info_hash) r.peer_id ⟨r.peer_id, host, r.port, now⟩ ∧
      announceHandlerWith ro now [] st r = some (out.resp, out.st) ∧
      (∀ roS nowS, ∃ st3, run out.st [Event.sweep roS nowS r.info_hash] = some st3 ∧
        peersOf st3 r.info_hash = (peersOf out.st r.info_hash).filter
          (fun e => !(decide (sub64 nowS e.2.LastSeen > 1800)))) ∧
      ∀ st3, run out.st between = some st3 →
        ∃ resp, announceHandlerWith ro now between st r = some (resp, st3) ∧
          resp.status = 200 ∧ resp.contentType = "text/plain" ∧
          resp.body = renderBody (snapshotMembers ro ⟨peersOf st3 r.info_hash⟩) ∧
          (snapshotMembers ro ⟨peersOf st3 r.info_hash⟩).Perm
            ((peersOf st3 r.info_hash).map (fun e => JoinHostPort e.2.IP e.2.Port)) ∧
          (snapshotMembers ro ⟨peersOf st3 r.info_hash⟩).length =
            (peersOf st3 r.info_hash).length ∧
          (mapKeys (peersOf st3 r.info_hash)).Nodup ∧
          ((∀ e ∈ peersOf st3 r.info_hash, noNewline e.2.IP ∧ noNewline e.2.Port) →
            (bodyLines resp.body).length = (peersOf st3 r.info_hash).length ∧
            (bodyLines resp.body).Perm
              ((peersOf st3 r.info_hash).map (fun e => JoinHostPort e.2.IP e.2.Port))) := by
  obtain ⟨host, port, hs, hv⟩ := validate_of_wellFormed r hr
  have hp := peersOf_announced_self now st r host hwf
  have hwf1 := WF_announced now st r host hwf
  have hb : mapGet (announced now st r host).swarms r.info_hash =
      some (getOrCreateSwarm st r.info_hash).1 := getOrCreateSwarm_get st r.info_hash
  have hah := announceHandler_of_validate ro now st r host hwf hv
  refine ⟨_, host, port, hs, hah, hp, ?_, ?_, ?_⟩
  · rw [announceHandlerWith_nil, hah]
    rfl
  · intro roS nowS
    exact run_sweep roS nowS (announced now st r host) r.info_hash _ hwf1 hb
  · intro st3 hrun
    have hwf3 := run_WF _ st3 between hwf1 hrun
    have hlen : (snapshotMembers ro ⟨peersOf st3 r.info_hash⟩).length =
        (peersOf st3 r.info_hash).length := by
      rw [(snapshotMembers_perm ro _).length_eq, List.length_map]
    refine ⟨_, announceHandlerWith_of_run ro now between st st3 r host hwf hv hrun, rfl, rfl, rfl,
      snapshotMembers_perm ro _, hlen, hwf3.peers_nodup r.info_hash, ?_⟩
    intro hnl
    have hlines : bodyLines (renderBody (snapshotMembers ro ⟨peersOf st3 r.info_hash⟩)) =
        snapshotMembers ro ⟨peersOf st3 r.info_hash⟩ := by
      apply bodyLines_renderBody
      intro l hl
      obtain ⟨e, he, hel⟩ := List.mem_map.mp hl
      have := hnl e ((ro.perm _).mem_iff.mp he)
      rw [← hel]
      exact noNewline_JoinHostPort _ _ this.1 this.2
    simp only [hlines]
    exact ⟨hlen, snapshotMembers_perm ro _⟩

/-- The scenario of the specification: P1 has announced ABC with port 6881 from
`1.2.3.4:5000`, and P2 announces ABC with port 6882 from `5.6.7.8:4000` right
after; the second body consists of the two lines `1.2.3.4:6881` and
`5.6.7.8:6882`.  When P2 announces 5000 seconds after P1 and the sweep started
at line 95 takes the lock before the snapshot, the body is the one line
`5.6.7.8:6882`. -/
theorem reply_body_exact_witness :
    (announceHandler RangeOrder.stored 0 State.init
      ⟨"ABC", "P1", "6881", "", "1.2.3.4:5000"⟩).map Outcome.st =
      some ⟨[⟨[("P1", ⟨"P1", "1.2.3.4", "6881", 0⟩)]⟩], [("ABC", 0)]⟩ ∧
    (announceHandlerWith RangeOrder.stored 1 []
      ⟨[⟨[("P1", ⟨"P1", "1.2.3.4", "6881", 0⟩)]⟩], [("ABC", 0)]⟩
      ⟨"ABC", "P2", "6882", "", "5.6.7.8:4000"⟩).map (fun x => bodyLines x.1.body) =
      some ["1.2.3.4:6881", "5.6.7.8:6882"] ∧
    announceHandlerWith RangeOrder.stored 5000 [.sweep RangeOrder.stored 5000 "ABC"]
      ⟨[⟨[("P1", ⟨"P1", "1.2.3.4", "6881", 0⟩)]⟩], [("ABC", 0)]⟩
      ⟨"ABC", "P2", "6882", "", "5.6.7.8:4000"⟩ =
      some (⟨200, "text/plain", "5.6.7.8:6882\n"⟩,
        ⟨[⟨[("P2", ⟨"P2", "5.6.7.8", "6882", 5000⟩)]⟩], [("ABC", 0)]⟩) ∧
    ∃ out host port,
      SplitHostPort (effectiveAddr ⟨"ABC", "P2", "6882", "", "5.6.7.8:4000"⟩) = .ok (host, port) ∧
      announceHandler RangeOrder.stored 5000
        ⟨[⟨[("P1", ⟨"P1", "1.2.3.4", "6881", 0⟩)]⟩], [("ABC", 0)]⟩
        ⟨"ABC", "P2", "6882", "", "5.6.7.8:4000"⟩ = some out ∧
      peersOf out.st "ABC" =
        mapSet (peersOf ⟨[⟨[("P1", ⟨"P1", "1.2.3.4", "6881", 0⟩)]⟩], [("ABC", 0)]⟩ "ABC") "P2"
          ⟨"P2", host, "6882", 5000⟩ ∧
      announceHandlerWith RangeOrder.stored 5000 []
        ⟨[⟨[("P1", ⟨"P1", "1.2.3.4", "6881", 0⟩)]⟩], [("ABC", 0)]⟩
        ⟨"ABC", "P2", "6882", "", "5.6.7.8:4000"⟩ = some (out.resp, out.st) ∧
      (∀ roS nowS, ∃ st3, run out.st [Event.sweep roS nowS "ABC"] = some st3 ∧
        peersOf st3 "ABC" = (peersOf out.st "ABC").filter
          (fun e => !(decide (sub64 nowS e.2.LastSeen > 1800)))) ∧
      ∀ st3, run out.st [Event.sweep RangeOrder.stored 5000 "ABC"] = some st3 →
        ∃ resp, announceHandlerWith RangeOrder.stored 5000
            [Event.sweep RangeOrder.stored 5000 "ABC"]
            ⟨[⟨[("P1", ⟨"P1", "1.2.3.4", "6881", 0⟩)]⟩], [("ABC", 0)]⟩
            ⟨"ABC", "P2", "6882", "", "5.6.7.8:4000"⟩ = some (resp, st3) ∧
          resp.status = 200 ∧ resp.contentType = "text/plain" ∧
          resp.body = renderBody (snapshotMembers RangeOrder.stored ⟨peersOf st3 "ABC"⟩) ∧
          (snapshotMembers RangeOrder.stored ⟨peersOf st3 "ABC"⟩).Perm
            ((peersOf st3 "ABC").map (fun e => JoinHostPort e.2.IP e.2.Port)) ∧
          (snapshotMembers RangeOrder.stored ⟨peersOf st3 "ABC"⟩).length =
            (peersOf st3 "ABC").length ∧
          (mapKeys (peersOf st3 "ABC")).Nodup ∧
          ((∀ e ∈ peersOf st3 "ABC", noNewline e.2.IP ∧ noNewline e.2.Port) →
            (bodyLines resp.body).length = (peersOf st3 "ABC").length ∧
            (bodyLines resp.body).Perm
              ((peersOf st3 "ABC").map (fun e => JoinHostPort e.2.IP e.2.Port))) :=
  ⟨by decide, by decide, by decide,
    reply_body_exact RangeOrder.stored 5000 [.sweep RangeOrder.stored 5000 "ABC"]
      ⟨[⟨[("P1", ⟨"P1", "1.2.3.4", "6881", 0⟩)]⟩], [("ABC", 0)]⟩
      ⟨"ABC", "P2", "6882", "", "5.6.7.8:4000"⟩ (by decide) (by decide)⟩

/-! ## C15: the lookup of the sweep on the unguarded map -/

theorem threadOK_mono (st st1 : State) (t : Thread) (hlen : st.heap.length ≤ st1.heap.length)
    (hkeys : ∀ k, (mapGet st.swarms k).isSome = true → (mapGet st1.swarms k).isSome = true)
    (h : threadOK st t) : threadOK st1 t := by
  cases t with
  | serving task =>
    cases task with
    | start r => simp [threadOK]
    | lookedUp r host sw =>
      cases sw with
      | none => simp [threadOK]
      | some a =>
        simp only [threadOK] at h ⊢
        exact ⟨lt_of_lt_of_le h.1 hlen, hkeys _ h.2⟩
    | holding r host a =>
      simp only [threadOK] at h ⊢
      exact ⟨lt_of_lt_of_le h.1 hlen, hkeys _ h.2⟩
    | upserted r host a =>
      simp only [threadOK] at h ⊢
      exact lt_of_lt_of_le h hlen
    | replied resp => simp [threadOK]
  | assigning r host a inserted =>
    cases inserted with
    | false =>
      simp only [threadOK] at h ⊢
      exact lt_of_lt_of_le h hlen
    | true =>
      simp only [threadOK] at h ⊢
      exact ⟨lt_of_lt_of_le h.1 hlen, hkeys _ h.2⟩
  | sweep k =>
    simp only [threadOK] at h ⊢
    exact hkeys _ h
  | sweeping x =>
    simp only [threadOK] at h ⊢
    obtain ⟨a, ha, hlt⟩ := h
    exact ⟨a, ha, lt_of_lt_of_le hlt hlen⟩
  | exited => simp [threadOK]

theorem isSome_mapGet_of_valid (st : State) (k : String)
    (hv : ∀ e ∈ st.swarms, e.2 < st.heap.length) (a : Nat) (h : mapGet st.swarms k = some a) :
    a < st.heap.length :=
  hv (k, a) (mapGet_mem _ _ _ h)

theorem isSome_mapGet_mapSet {V : Type} (m : GoMap V) (k k2 : String) (v : V)
    (h : (mapGet m k2).isSome = true) : (mapGet (mapSet m k v) k2).isSome = true := by
  by_cases hk : k2 = k
  · rw [hk, mapGet_mapSet_self]; rfl
  · rw [mapGet_mapSet_ne m k k2 v hk]; exact h

/-- A step of a goroutine that holds what is there does not dereference nil, and
after it every goroutine still holds what is there. -/
theorem threadStep_safe (ro : RangeOrder) (now : Int) (m : Shared) (t : Thread)
    (hv : ∀ e ∈ m.st.swarms, e.2 < m.st.heap.length) (ht : threadOK m.st t) :
    threadStep ro now m t ≠ .error .nilDereference ∧
    ∀ m1 t1 started, threadStep ro now m t = .ok (m1, t1, started) →
      (∀ e ∈ m1.st.swarms, e.2 < m1.st.heap.length) ∧ threadOK m1.st t1 ∧
      (∀ x ∈ started, threadOK m1.st x) ∧ m.st.heap.length ≤ m1.st.heap.length ∧
      (∀ k, (mapGet m.st.swarms k).isSome = true → (mapGet m1.st.swarms k).isSome = true) := by
  cases t with
  | serving task =>
    cases task with
    | start r =>
      simp only [threadStep]
      cases hval : validate r with
      | error resp =>
        refine ⟨by simp, ?_⟩
        intro m1 t1 started h
        simp only [Except.ok.injEq, Prod.mk.injEq] at h
        obtain ⟨h1, h2, h3⟩ := h
        subst h1; subst h2; subst h3
        exact ⟨hv, by simp [threadOK], by simp, le_refl _, fun _ h => h⟩
      | ok host =>
        simp only
        by_cases hf : readFault m = true
        · simp [hf]
        · simp only [hf]
          refine ⟨by simp, ?_⟩
          intro m1 t1 started h
          simp only [Bool.false_eq_true, if_false, Except.ok.injEq, Prod.mk.injEq] at h
          obtain ⟨h1, h2, h3⟩ := h
          subst h1; subst h2; subst h3
          refine ⟨hv, ?_, by simp, le_refl _, fun _ h => h⟩
          cases hg : mapGet m.st.swarms r.info_hash with
          | none => simp [threadOK]
          | some a =>
            simp only [threadOK]
            exact ⟨isSome_mapGet_of_valid m.st _ hv a hg, by rw [hg]; rfl⟩
    | lookedUp r host sw =>
      cases sw with
      | some a =>
        simp only [threadStep]
        refine ⟨by simp, ?_⟩
        intro m1 t1 started h
        simp only [Except.ok.injEq, Prod.mk.injEq] at h
        obtain ⟨h1, h2, h3⟩ := h
        subst h1; subst h2; subst h3
        simp only [threadOK] at ht
        exact ⟨hv, by simp only [threadOK]; exact ht, by simp, le_refl _, fun _ h => h⟩
      | none =>
        simp only [threadStep]
        by_cases hw : m.writing = true
        · simp [hw]
        · simp only [hw]
          refine ⟨by simp, ?_⟩
          intro m1 t1 started h
          simp only [Bool.false_eq_true, if_false, Except.ok.injEq, Prod.mk.injEq] at h
          obtain ⟨h1, h2, h3⟩ := h
          subst h1; subst h2; subst h3
          refine ⟨?_, ?_, by simp, ?_, fun _ h => h⟩
          · intro e he
            simp only [List.length_append, List.length_singleton]
            exact Nat.lt_succ_of_lt (hv e he)
          · simp [threadOK]
          · simp
    | holding r host a =>
      simp only [threadOK] at ht
      obtain ⟨sw, hsw⟩ : ∃ sw, m.st.heap.get? a = some sw :=
        ⟨m.st.heap.get ⟨a, ht.1⟩, List.get?_eq_get ht.1⟩
      simp only [threadStep, upsertPeer, hsw]
      refine ⟨by simp, ?_⟩
      intro m1 t1 started h
      simp only [Except.ok.injEq, Prod.mk.injEq] at h
      obtain ⟨h1, h2, h3⟩ := h
      subst h1; subst h2; subst h3
      refine ⟨?_, ?_, ?_, ?_, fun _ h => h⟩
      · intro e he
        simpa using hv e he
      · simp only [threadOK, List.length_set]
        exact ht.1
      · intro x hx
        simp only [List.mem_singleton] at hx
        subst hx
        simp only [threadOK]
        exact ht.2
      · simp
    | upserted r host a =>
      simp only [threadOK] at ht
      obtain ⟨sw, hsw⟩ : ∃ sw, m.st.heap.get? a = some sw :=
        ⟨m.st.heap.get ⟨a, ht⟩, List.get?_eq_get ht⟩
      simp only [threadStep, hsw]
      refine ⟨by simp, ?_⟩
      intro m1 t1 started h
      simp only [Except.ok.injEq, Prod.mk.injEq] at h
      obtain ⟨h1, h2, h3⟩ := h
      subst h1; subst h2; subst h3
      exact ⟨hv, by simp [threadOK], by simp, le_refl _, fun _ h => h⟩
    | replied resp =>
      simp only [threadStep]
      refine ⟨by simp, ?_⟩
      intro m1 t1 started h
      simp only [Except.ok.injEq, Prod.mk.injEq] at h
      obtain ⟨h1, h2, h3⟩ := h
      subst h1; subst h2; subst h3
      exact ⟨hv, by simp [threadOK], by simp, le_refl _, fun _ h => h⟩
  | assigning r host a inserted =>
    cases inserted with
    | false =>
      simp only [threadOK] at ht
      simp only [threadStep]
      refine ⟨by simp, ?_⟩
      intro m1 t1 started h
      simp only [Except.ok.injEq, Prod.mk.injEq] at h
      obtain ⟨h1, h2, h3⟩ := h
      subst h1; subst h2; subst h3
      refine ⟨?_, ?_, by simp, le_refl _, ?_⟩
      · intro e he
        rcases mem_mapSet _ _ _ _ he with h | h
        · exact hv e h
        · rw [h]; exact ht
      · simp only [threadOK]
        exact ⟨ht, by rw [mapGet_mapSet_self]; rfl⟩
      · intro k hk
        exact isSome_mapGet_mapSet _ _ _ _ hk
    | true =>
      simp only [threadOK] at ht
      simp only [threadStep]
      by_cases hw : m.writing = true
      · simp only [hw, if_true]
        refine ⟨by simp, ?_⟩
        intro m1 t1 started h
        simp only [Except.ok.injEq, Prod.mk.injEq] at h
        obtain ⟨h1, h2, h3⟩ := h
        subst h1; subst h2; subst h3
        exact ⟨hv, by simp only [threadOK]; exact ht, by simp, le_refl _, fun _ h => h⟩
      · simp [hw]
  | sweep k =>
    simp only [threadOK] at ht
    simp only [threadStep]
    by_cases hf : readFault m = true
    · simp [hf]
    · simp only [hf]
      refine ⟨by simp, ?_⟩
      intro m1 t1 started h
      simp only [Bool.false_eq_true, if_false, Except.ok.injEq, Prod.mk.injEq] at h
      obtain ⟨h1, h2, h3⟩ := h
      subst h1; subst h2; subst h3
      refine ⟨hv, ?_, by simp, le_refl _, fun _ h => h⟩
      cases hg : mapGet m.st.swarms k with
      | none => rw [hg] at ht; exact absurd ht (by simp)
      | some a =>
        simp only [threadOK]
        exact ⟨a, rfl, isSome_mapGet_of_valid m.st _ hv a hg⟩
  | sweeping x =>
    simp only [threadOK] at ht
    obtain ⟨a, hx, hlt⟩ := ht
    subst hx
    obtain ⟨sw, hsw⟩ : ∃ sw, m.st.heap.get? a = some sw :=
      ⟨m.st.heap.get ⟨a, hlt⟩, List.get?_eq_get hlt⟩
    simp only [threadStep, hsw]
    refine ⟨by simp, ?_⟩
    intro m1 t1 started h
    simp only [Except.ok.injEq, Prod.mk.injEq] at h
    obtain ⟨h1, h2, h3⟩ := h
    subst h1; subst h2; subst h3
    refine ⟨?_, by simp [threadOK], by simp, by simp, fun _ h => h⟩
    intro e he
    simpa using hv e he
  | exited =>
    simp only [threadStep]
    refine ⟨by simp, ?_⟩
    intro m1 t1 started h
    simp only [Except.ok.injEq, Prod.mk.injEq] at h
    obtain ⟨h1, h2, h3⟩ := h
    subst h1; subst h2; subst h3
    exact ⟨hv, by simp [threadOK], by simp, le_refl _, fun _ h => h⟩

theorem worldStep_safe (ro : RangeOrder) (now : Int) (w : World) (i : Nat) (hs : w.Safe) :
    worldStep ro now w i ≠ .error .nilDereference ∧
    ∀ w1, worldStep ro now w i = .ok w1 → w1.Safe := by
  unfold worldStep
  cases hg : w.threads.get? i with
  | none =>
    refine ⟨by simp, ?_⟩
    intro w1 h
    simp only [Except.ok.injEq] at h
    rw [← h]; exact hs
  | some t =>
    have ht := hs.2 t (List.get?_mem hg)
    obtain ⟨hne, hok⟩ := threadStep_safe ro now w.mem t hs.1 ht
    cases hstep : threadStep ro now w.mem t with
    | error f =>
      simp only [hstep]
      refine ⟨?_, by simp⟩
      intro h
      rw [hstep] at hne
      simp only [Except.error.injEq] at h
      rw [h] at hne
      exact hne rfl
    | ok res =>
      obtain ⟨m1, t1, started⟩ := res
      obtain ⟨hv1, ht1, hst, hlen, hkeys⟩ := hok m1 t1 started hstep
      simp only [hstep]
      refine ⟨by simp, ?_⟩
      intro w1 h
      simp only [Except.ok.injEq] at h
      rw [← h]
      refine ⟨hv1, ?_⟩
      intro x hx
      simp only [List.mem_append] at hx
      rcases hx with hx | hx
      · rcases List.mem_or_eq_of_mem_set hx with h2 | h2
        · exact threadOK_mono w.mem.st m1.st x hlen hkeys (hs.2 x h2)
        · rw [h2]; exact ht1
      · exact hst x hx

theorem worldRun_safe (ro : RangeOrder) (w : World) (sched : List (Nat × Int)) (hs : w.Safe) :
    worldRun ro w sched ≠ .error .nilDereference := by
  induction sched generalizing w with
  | nil => simp [worldRun]
  | cons turn sched ih =>
    obtain ⟨i, now⟩ := turn
    obtain ⟨hne, hok⟩ := worldStep_safe ro now w i hs
    simp only [worldRun]
    cases hstep : worldStep ro now w i with
    | error f =>
      simp only [hstep]
      intro h
      rw [hstep] at hne
      exact hne h
    | ok w1 =>
      simp only [hstep]
      exact ih w1 (hok w1 hstep)

/-- Whatever requests are served from start-up and however the scheduler
interleaves the accesses of the handlers and of the goroutines they start, no
goroutine dereferences nil: the content identifier `cleanSwarm` is started
with is a key of the registry, bound to an allocated swarm, when line 111 reads
it.  The one way the lookup fails is the fatal error of the runtime. -/
theorem no_nil_dereference (ro : RangeOrder) (rs : List Request) (sched : List (Nat × Int)) :
    worldRun ro ⟨⟨State.init, false⟩, rs.map (fun r => Thread.serving (.start r))⟩ sched ≠
      .error .nilDereference := by
  apply worldRun_safe
  refine ⟨by simp [State.init], ?_⟩
  intro t ht
  obtain ⟨r, -, hr⟩ := List.mem_map.mp ht
  rw [← hr]
  simp [threadOK]

/-- C15 at the failing input: P1 announces ABC at time 0 and is answered;
then, at time 1, P2 announces XYZ.  The goroutine `cleanSwarm("ABC")` started by
the first request has not run yet when the second request is inside its
assignment to `swarms` at line 86.  ABC is bound to an allocated swarm, yet the
index expression of line 111 ends the process: fatal error, concurrent map read
and map write.  When the goroutine runs before the second request, both are
served. -/
theorem sweep_lookup_aborts :
    worldRun RangeOrder.stored
        ⟨⟨State.init, false⟩, [.serving (.start ⟨"ABC", "P1", "6881", "", "1.2.3.4:5000"⟩),
          .serving (.start ⟨"XYZ", "P2", "6882", "", "5.6.7.8:4000"⟩)]⟩
        [(0, 0), (0, 0), (0, 0), (0, 0), (0, 0), (0, 0), (1, 1), (1, 1)] =
      .ok ⟨⟨⟨[⟨[("P1", ⟨"P1", "1.2.3.4", "6881", 0⟩)]⟩, ⟨[]⟩], [("ABC", 0)]⟩, true⟩,
        [.serving (.replied ⟨200, "text/plain", "1.2.3.4:6881\n"⟩),
          .assigning ⟨"XYZ", "P2", "6882", "", "5.6.7.8:4000"⟩ "5.6.7.8" 1 false,
          .sweep "ABC"]⟩ ∧
    State.swarmOf ⟨[⟨[("P1", ⟨"P1", "1.2.3.4", "6881", 0⟩)]⟩, ⟨[]⟩], [("ABC", 0)]⟩ "ABC" =
      some ⟨[("P1", ⟨"P1", "1.2.3.4", "6881", 0⟩)]⟩ ∧
    worldRun RangeOrder.stored
        ⟨⟨State.init, false⟩, [.serving (.start ⟨"ABC", "P1", "6881", "", "1.2.3.4:5000"⟩),
          .serving (.start ⟨"XYZ", "P2", "6882", "", "5.6.7.8:4000"⟩)]⟩
        [(0, 0), (0, 0), (0, 0), (0, 0), (0, 0), (0, 0), (1, 1), (1, 1), (2, 1)] =
      .error .concurrentMapReadAndMapWrite ∧
    worldRun RangeOrder.stored
        ⟨⟨State.init, false⟩, [.serving (.start ⟨"ABC", "P1", "6881", "", "1.2.3.4:5000"⟩),
          .serving (.start ⟨"XYZ", "P2", "6882", "", "5.6.7.8:4000"⟩)]⟩
        [(0, 0), (0, 0), (0, 0), (0, 0), (0, 0), (0, 0), (2, 0), (2, 0),
          (1, 1), (1, 1), (1, 1), (1, 1), (1, 1), (1, 1), (3, 1), (3, 1)] =
      .ok ⟨⟨⟨[⟨[("P1", ⟨"P1", "1.2.3.4", "6881", 0⟩)]⟩, ⟨[("P2", ⟨"P2", "5.6.7.8", "6882", 1⟩)]⟩],
          [("ABC", 0), ("XYZ", 1)]⟩, false⟩,
        [.serving (.replied ⟨200, "text/plain", "1.2.3.4:6881\n"⟩),
          .serving (.replied ⟨200, "text/plain", "5.6.7.8:6882\n"⟩), .exited, .exited]⟩ := by
  refine ⟨by decide, by decide, by decide, by decide⟩

end Retracker
